import Mathlib

/-!
Verification of the ingestion & normalization pipeline of the
fulfillment-calendar repository (src/App.tsx): header resolution, date
normalization, item-list parsing, SKU/title classification, per-date event
expansion, and stats aggregation.

Strings are modelled as `List Char`; JS numbers as `ℚ` (exact arithmetic;
IEEE rounding is out of scope); JS `Date` values as civil calendar dates
(`CivilDate`), with the local timezone modelled as UTC (the spec fixes the
1900-epoch convention in UTC).  All definitions are translated from the
TypeScript source; models of JS / library builtins (`Date`, `Date.parse`,
date-fns `parse`) follow their documented semantics and carry a doc comment
stating the modelled fragment.
-/

/- ### Calendar core: the civil (proleptic Gregorian) calendar of JS `Date` -/

structure CivilDate where
  year : Int
  month : Nat
  day : Nat
deriving DecidableEq, Repr

/-- Days from the start of a 400-year era to the start of March-based year `y` of
that era (`y ≤ 400`). -/
def dos (y : Nat) : Nat := 365 * y + y / 4 - y / 100

/-- March-based year within the era (0..399) containing era day `doe`:
quotient estimate with one downward correction, clamped to the era. -/
def yoeOfDoe (doe : Nat) : Nat :=
  min (if dos (doe / 365) ≤ doe then doe / 365 else doe / 365 - 1) 399

/-- A March-based era year is long (366 days) iff the civil year it ends in is leap. -/
def longYoe (y : Nat) : Bool := ((y + 1) % 4 == 0 && (y + 1) % 100 != 0) || y == 399

def mpOfDoy (doy : Nat) : Nat := (5 * doy + 2) / 153

def dayOfDoy (doy : Nat) : Nat := doy - (153 * mpOfDoy doy + 2) / 5 + 1

def monthOfMp (mp : Nat) : Nat := if mp < 10 then mp + 3 else mp - 9

/-- Civil (Gregorian) date of day `z`, counting days from 1970-01-01 (z = 0).
Model of the calendar used by JS `Date` UTC accessors; exact for `z ≥ -719468`
(i.e. dates from 0000-03-01 on), which covers everything the pipeline can reach. -/
def civilOfEraDoe (era doe : Nat) : CivilDate :=
  let yoe : Nat := yoeOfDoe doe
  let doy : Nat := doe - dos yoe
  let m : Nat := monthOfMp (mpOfDoy doy)
  ⟨(yoe : Int) + (era : Int) * 400 + (if m ≤ 2 then 1 else 0), m, dayOfDoy doy⟩

def civilFromDays (z : Int) : CivilDate :=
  civilOfEraDoe ((z + 719468).toNat / 146097) ((z + 719468).toNat % 146097)

/-- Day-of-the-March-based-year of month `m` (1..12), day `d`. -/
def doyOfMd (m d : Nat) : Nat := (153 * (if 2 < m then m - 3 else m + 9) + 2) / 5 + d - 1

/-- Day number (1970-01-01 = 0) of a civil date; inverse of `civilFromDays`.
Exact for years ≥ 1. -/
def daysFromCivil (y : Int) (m d : Nat) : Int :=
  let ysn : Nat := (if m ≤ 2 then y - 1 else y).toNat
  let era : Nat := ysn / 400
  let yoe : Nat := ysn % 400
  let doe : Nat := dos yoe + doyOfMd m d
  (era : Int) * 146097 + (doe : Int) - 719468

def isLeapJs (y : Int) : Bool := (y % 4 == 0 && y % 100 != 0) || y % 400 == 0

def daysInMonth (y : Int) (m : Nat) : Nat :=
  if m = 2 then (if isLeapJs y then 29 else 28)
  else if m = 4 ∨ m = 6 ∨ m = 9 ∨ m = 11 then 30 else 31

/-- Model of JS `new Date(year, monthIndex, day)` (with day overflow
normalization), restricted to its date components; exact for results at
year ≥ 1, which covers every call site (`year = 2000 + yy`). -/
def jsMakeDate (year : Int) (monthIdx d : Nat) : CivilDate :=
  civilFromDays (daysFromCivil year (monthIdx + 1) d)

/-- Model of JS `Date.prototype.getMonth` over our civil dates (0-based month). -/
def getMonthIdx (c : CivilDate) : Nat := c.month - 1

/- ### Characters, digits, whitespace, trim -/

def isDigitChar (c : Char) : Bool := decide ('0' ≤ c) && decide (c ≤ '9')

def digitVal (c : Char) : Nat := c.toNat - 48

def digitChar (n : Nat) : Char := Char.ofNat (48 + n)

/-- `n.toString().padStart(2, '0')`; faithful for `n < 100`, which holds at
every call site (day ≤ 31, month ≤ 12, year % 100 < 100). -/
def pad2 (n : Nat) : List Char := [digitChar (n / 10), digitChar (n % 10)]

/-- JS whitespace (`\s`, `trim`): space, tab, LF, CR, VT, FF.  Exotic Unicode
whitespace is not modelled (it does not occur in the claims). -/
def isWsChar (c : Char) : Bool :=
  c = ' ' || c = '\t' || c = '\n' || c = '\r' || c = '\x0b' || c = '\x0c'

/-- JS `String.prototype.trim`. -/
def trimChars (s : List Char) : List Char :=
  ((s.dropWhile isWsChar).reverse.dropWhile isWsChar).reverse

/- ### Strict DD-MM-YY parsing (`parseStrictDDMMYY`) -/

/-- The regex match `/^(\d{2})-(\d{2})-(\d{2})$/` with the three captured
two-digit numbers. -/
def strictShape (s : List Char) : Option (Nat × Nat × Nat) :=
  match s with
  | [d1, d2, h1, m1, m2, h2, y1, y2] =>
    if h1 = '-' && h2 = '-' && isDigitChar d1 && isDigitChar d2 && isDigitChar m1
        && isDigitChar m2 && isDigitChar y1 && isDigitChar y2 then
      some (10 * digitVal d1 + digitVal d2, 10 * digitVal m1 + digitVal m2,
            10 * digitVal y1 + digitVal y2)
    else none
  | _ => none

/-- `parseStrictDDMMYY` from the source: strict `DD-MM-YY` match, range checks
on day and month, then construction of `new Date(2000+yy, mm-1, dd)` and a
field-by-field roundtrip validation. -/
def parseStrictDDMMYY (s : List Char) : Option CivilDate :=
  match strictShape s with
  | none => none
  | some (dd, mm, yy) =>
    if mm < 1 ∨ 12 < mm then none
    else if dd < 1 ∨ 31 < dd then none
    else
      let year : Int := 2000 + (yy : Int)
      let c := jsMakeDate year (mm - 1) dd
      if c.year ≠ year ∨ getMonthIdx c ≠ mm - 1 ∨ c.day ≠ dd then none
      else some c

/-- `DD-MM-YY` formatting of a two-digit day/month/year triple. -/
def strictFmt (dd mm yy : Nat) : List Char :=
  pad2 dd ++ '-' :: pad2 mm ++ '-' :: pad2 yy

/- ### JS values, truthiness, string conversion -/

/-- A raw cell value as seen by the pipeline: `undefined`, a number, or a
string.  Numbers are exact rationals (IEEE rounding not modelled; `NaN` and
infinities do not occur in the claims). -/
inductive JsValue where
  | undef : JsValue
  | num : ℚ → JsValue
  | str : List Char → JsValue
deriving DecidableEq

/-- JS truthiness (`!value` gating): `undefined`, `0` and `""` are falsy. -/
def jsTruthy : JsValue → Bool
  | .undef => false
  | .num q => q != 0
  | .str s => !s.isEmpty

/-- `DD-MM-YY` formatting of the day/month/year components of a civil date
(`getDate`/`getMonth`/`getFullYear` + `padStart(2,'0')`); `year % 100` uses
Euclidean mod, which agrees with JS `%` for the nonnegative years that occur
here. -/
def ddmmyyOfCivil (c : CivilDate) : List Char :=
  strictFmt c.day c.month (c.year % 100).toNat

/-- `convertExcelSerialToDDMMYY` from the source: build the JS date at
`(serial - 25569) * 86400 * 1000` milliseconds and format its calendar date
(timezone modelled as UTC) as `DD-MM-YY`. -/
def convertExcelSerialToDDMMYY (serial : ℚ) : List Char :=
  ddmmyyOfCivil (civilFromDays ⌊(serial - 25569) * 86400 * 1000 / 86400000⌋)

/-- The date a spreadsheet serial encodes, per the spec's words: 1900-epoch
convention, serial 25569 = 1970-01-01 UTC, fractional part (time of day)
discarded — formatted as `DD-MM-YY`. -/
def specSerialToDDMMYY (serial : ℚ) : List Char :=
  ddmmyyOfCivil (civilFromDays (⌊serial⌋ - 25569))

/- ### ISO branch and date-fns fallbacks of `normalizeDate` -/

/-- The guard `/^\d{4}-\d{2}-\d{2}/.test(s) && s.length >= 10`. -/
def isoGuard (s : List Char) : Bool :=
  match s with
  | a :: b :: c :: d :: h1 :: e :: f :: h2 :: g :: i :: _ =>
    isDigitChar a && isDigitChar b && isDigitChar c && isDigitChar d && h1 = '-'
      && isDigitChar e && isDigitChar f && h2 = '-' && isDigitChar g && isDigitChar i
  | _ => false

/-- Model of JS `Date.parse` on the strings that reach it here (they match the
ISO guard): per ECMA-262's Date Time String Format, the date-only form
`YYYY-MM-DD` parses to UTC midnight of that date when it is a real calendar
date; longer strings (time suffixes) and implementation-defined heuristic
formats are modelled as unparseable (`NaN`). -/
def jsDateParse (s : List Char) : Option CivilDate :=
  match s with
  | [a, b, c, d, h1, e, f, h2, g, i] =>
    if isDigitChar a && isDigitChar b && isDigitChar c && isDigitChar d && h1 = '-'
        && isDigitChar e && isDigitChar f && h2 = '-' && isDigitChar g && isDigitChar i then
      let y : Nat := 1000 * digitVal a + 100 * digitVal b + 10 * digitVal c + digitVal d
      let mo : Nat := 10 * digitVal e + digitVal f
      let dd : Nat := 10 * digitVal g + digitVal i
      if 1 ≤ mo ∧ mo ≤ 12 ∧ 1 ≤ dd ∧ dd ≤ daysInMonth (y : Int) mo then
        some ⟨(y : Int), mo, dd⟩
      else none
    else none
  | _ => none

/-- Greedy run of at most `max` digits (date-fns `parseNDigits`), with its value. -/
def takeDigitsAux : Nat → List Char → Nat → Nat × List Char
  | 0, s, acc => (acc, s)
  | _ + 1, [], acc => (acc, [])
  | n + 1, c :: rest, acc =>
    if isDigitChar c then takeDigitsAux n rest (10 * acc + digitVal c) else (acc, c :: rest)

def takeDigits (maxLen : Nat) (s : List Char) : Option (Nat × List Char) :=
  match s with
  | c :: rest => if isDigitChar c then some (takeDigitsAux (maxLen - 1) rest (digitVal c)) else none
  | [] => none

def expectChar (c : Char) : List Char → Option (List Char)
  | x :: r => if x = c then some r else none
  | [] => none

/-- date-fns two-digit-year resolution (`yy`): the year lands within 50 years
around the reference date's year. -/
def resolveTwoDigitYear (refYear : Int) (v : Nat) : Int :=
  let isCommonEra : Bool := 0 < refYear
  let absCurrentYear : Int := if isCommonEra then refYear else 1 - refYear
  let result : Int :=
    if absCurrentYear ≤ 50 then (if v = 0 then 100 else (v : Int))
    else
      let rangeEnd := absCurrentYear + 50
      let rangeEndCentury := rangeEnd / 100 * 100
      (v : Int) + rangeEndCentury - (if rangeEnd % 100 ≤ (v : Int) then 100 else 0)
  if isCommonEra then result else 1 - result

/-- Model of date-fns `parse(s, fmt, refDate)` for the three fixed formats the
source uses (`dd-MM-yy`, `dd-MM-yyyy`, `dd/MM/yyyy`): 1–2 digit day, literal
separator, 1–2 digit month, literal separator, 1–2 (`yy`) or 1–4 (`yyyy`)
digit year, whole input consumed; month validated to 1..12 and day validated
against the length of the resolved month, per date-fns' parser validators.
Only the reference date's year is relevant (`refYear`, from `new Date()`). -/
def parseDateFns (refYear : Int) (sep : Char) (yearDigits : Nat) (s : List Char) :
    Option CivilDate :=
  match takeDigits 2 s with
  | none => none
  | some (dd, r1) =>
    match expectChar sep r1 with
    | none => none
    | some r2 =>
      match takeDigits 2 r2 with
      | none => none
      | some (mm, r3) =>
        match expectChar sep r3 with
        | none => none
        | some r4 =>
          match takeDigits yearDigits r4 with
          | none => none
          | some (yv, r5) =>
            if r5 = [] then
              let y : Int := if yearDigits = 2 then resolveTwoDigitYear refYear yv else (yv : Int)
              if 1 ≤ mm ∧ mm ≤ 12 then
                if 1 ≤ dd ∧ dd ≤ daysInMonth y mm then some ⟨y, mm, dd⟩ else none
              else none
            else none

/- ### `normalizeDate` -/

/-- `normalizeDate` from the source.  `refYear` models the year of `new Date()`
passed to date-fns `parse` as the reference date; every theorem below holds
for every `refYear`.  Numbers and strings that fail all rules yield `none`
(the source's `null`). -/
def normalizeDate (refYear : Int) (v : JsValue) : Option CivilDate :=
  if jsTruthy v = false then none
  else
    match v with
    | .undef => none
    | .num q =>
      if 25000 < q ∧ q < 100000 then parseStrictDDMMYY (convertExcelSerialToDDMMYY q)
      else none
    | .str s0 =>
      let s := trimChars s0
      match parseStrictDDMMYY s with
      | some d => some d
      | none =>
        match (if isoGuard s then jsDateParse s else none) with
        | some d => some d
        | none =>
          match parseDateFns refYear '-' 2 s with
          | some d => some d
          | none =>
            match parseDateFns refYear '-' 4 s with
            | some d => some d
            | none => parseDateFns refYear '/' 4 s

/- ### Claim C5: ISO 8601 strings -/

/-- Four-digit decimal formatting, for stating which ISO strings parse. -/
def pad4 (n : Nat) : List Char :=
  [digitChar (n / 1000), digitChar (n / 100 % 10), digitChar (n / 10 % 10), digitChar (n % 10)]

def isoFmt (y mo dd : Nat) : List Char := pad4 y ++ '-' :: pad2 mo ++ '-' :: pad2 dd

/- ### Line items, cells, rows -/

def chars (s : String) : List Char := s.toList

/-- A parsed line item (`ParsedLineItem` in the source): display name,
quantity, and the raw source fragment when one exists. -/
structure ParsedLineItem where
  name : List Char
  quantity : Nat
  raw : Option (List Char) := none
deriving DecidableEq

/-- A cell value of a row object: a JS primitive or an injected array of
parsed items (`__itemsForEvent`). -/
inductive CellValue where
  | js : JsValue → CellValue
  | items : List ParsedLineItem → CellValue
deriving DecidableEq

/-- A row object: association list of property key / value, unique keys,
in property order. -/
abbrev Row := List (List Char × CellValue)

/-- JS property read `row[key]` (exact key). -/
def rowGet : Row → List Char → Option CellValue
  | [], _ => none
  | (k, v) :: rest, key => if k = key then some v else rowGet rest key

/-- JS property write `row[key] = v`: updates in place, or appends a new key. -/
def setKey : Row → List Char → CellValue → Row
  | [], k, v => [(k, v)]
  | (k1, v1) :: rest, k, v => if k1 = k then (k, v) :: rest else (k1, v1) :: setKey rest k v

/-- Truthiness of a possibly-missing cell value (arrays are always truthy). -/
def cellTruthy : Option CellValue → Bool
  | none => false
  | some (.js v) => jsTruthy v
  | some (.items _) => true

/- ### Header resolution -/

/-- ASCII lowercasing (`toLowerCase`; non-ASCII case folding not modelled —
header synonyms are ASCII). -/
def toLowerChar (c : Char) : Char :=
  if 'A' ≤ c ∧ c ≤ 'Z' then Char.ofNat (c.toNat + 32) else c

def lowerStr (s : List Char) : List Char := s.map toLowerChar

/-- `replace(/\s+/g, ' ')`: collapse whitespace runs to one space. -/
def collapseWsAux : List Char → Bool → List Char
  | [], _ => []
  | c :: rest, prevWs =>
    if isWsChar c then
      (if prevWs then collapseWsAux rest true else ' ' :: collapseWsAux rest true)
    else c :: collapseWsAux rest false

def collapseWs (s : List Char) : List Char := collapseWsAux s false

/-- `normalizeHeaderName` from the source: lowercase, strip BOM, turn `_`/`-`
into spaces, collapse whitespace, trim. -/
def normalizeHeaderName (h : List Char) : List Char :=
  trimChars (collapseWs (((h.map toLowerChar).filter (fun c => c ≠ '\uFEFF')).map
    (fun c => if c = '_' ∨ c = '-' then ' ' else c)))

/-- Lookup of a normalized header in the row's normalized-key map; the map is
built by iterating the row's keys in order with overwrite, so the last
matching key wins. -/
def lookupNorm (row : Row) (nk : List Char) : Option CellValue :=
  (row.reverse.find? (fun e => normalizeHeaderName e.1 = nk)).map (·.2)

/-- `getValueFromRow` from the source: first candidate whose normalized form
is a normalized key of the row. -/
def getValueFromRow (row : Row) : List (List Char) → Option CellValue
  | [] => none
  | c :: rest =>
    match lookupNorm row (normalizeHeaderName c) with
    | some v => some v
    | none => getValueFromRow row rest

/- ### Item-list splitting and the offline-items grammar -/

/-- Fragment splitting on `/\r?\n|,(?=(?:[^"]*"[^"]*")*[^"]*$)/`: newlines, or
commas followed by an even number of quote characters. -/
def splitRawAux : List Char → List Char → List (List Char)
  | [], acc => [acc.reverse]
  | '\r' :: '\n' :: rest, acc => acc.reverse :: splitRawAux rest []
  | '\n' :: rest, acc => acc.reverse :: splitRawAux rest []
  | ',' :: rest, acc =>
    if rest.count '"' % 2 = 0 then acc.reverse :: splitRawAux rest []
    else splitRawAux rest (',' :: acc)
  | c :: rest, acc => splitRawAux rest (c :: acc)

/-- `splitItemsList` from the source: split, trim each part, drop empties. -/
def splitItemsList (cell : List Char) : List (List Char) :=
  ((splitRawAux cell []).map trimChars).filter (fun s => !s.isEmpty)

/-- `parseInt(digits, 10)` on a digit string (exact; float rounding of very
long digit strings is not modelled). -/
def natOfDigits (ds : List Char) : Nat := ds.foldl (fun a c => 10 * a + digitVal c) 0

/-- The trailing quantity suffix `/\s-\s(\d+)\s*$/` of a fragment: on a match,
the quantity and the fragment prefix the suffix replaces away. -/
def parseQtySuffix (part : List Char) : Option (Nat × List Char) :=
  let r := part.reverse
  let r1 := r.dropWhile isWsChar
  let ds := r1.takeWhile isDigitChar
  if ds.isEmpty then none
  else
    match r1.drop ds.length with
    | w2 :: h :: w1 :: pre =>
      if isWsChar w2 && h = '-' && isWsChar w1 then some (natOfDigits ds.reverse, pre.reverse)
      else none
    | _ => none

/-- One fragment of the offline-items grammar. -/
def parseOfflineFragment (part : List Char) : ParsedLineItem :=
  match parseQtySuffix part with
  | some (q, pre) => ⟨trimChars pre, q, some part⟩
  | none => ⟨part, 1, some part⟩

/-- `parseItemsFromOfflineCell` from the source. -/
def parseItemsFromOfflineCell (cell : List Char) : List ParsedLineItem :=
  (splitItemsList cell).map parseOfflineFragment

/- ### The notes grammar -/

/-- Line splitting on `/\r?\n/`. -/
def splitLinesAux : List Char → List Char → List (List Char)
  | [], acc => [acc.reverse]
  | '\r' :: '\n' :: rest, acc => acc.reverse :: splitLinesAux rest []
  | '\n' :: rest, acc => acc.reverse :: splitLinesAux rest []
  | c :: rest, acc => splitLinesAux rest (c :: acc)

def splitLines (cell : List Char) : List (List Char) := splitLinesAux cell []

/-- A character the regex `.` matches (no line terminators). -/
def isDotChar (c : Char) : Bool := !(c = '\n' || c = '\r')

/-- Match `\s*(.+)$` against `tail`, returning the capture: greedy whitespace
with backtracking so the final group is nonempty. -/
def matchDotPlus (tail : List Char) : Option (List Char) :=
  let rest := tail.dropWhile isWsChar
  if !rest.isEmpty then (if rest.all isDotChar then some rest else none)
  else
    match tail.getLast? with
    | some c => if isDotChar c then some [c] else none
    | none => none

/-- Leading `[-*]` marker. -/
def afterMarker : List Char → Option (List Char)
  | c :: rest => if c = '-' ∨ c = '*' then some rest else none
  | [] => none

/-- `\s*(\d+)` with a nonempty digit run. -/
def takeCount (s : List Char) : Option (Nat × List Char) :=
  let s1 := s.dropWhile isWsChar
  let ds := s1.takeWhile isDigitChar
  if ds.isEmpty then none else some (natOfDigits ds, s1.drop ds.length)

/-- `\s*x` (case-insensitive `x`). -/
def expectX (s : List Char) : Option (List Char) :=
  match s.dropWhile isWsChar with
  | c :: rest => if c = 'x' ∨ c = 'X' then some rest else none
  | [] => none

/-- `(\d+)` anchored at the current position. -/
def leadingDigits (s : List Char) : Option (Nat × List Char) :=
  let ds := s.takeWhile isDigitChar
  if ds.isEmpty then none else some (natOfDigits ds, s.drop ds.length)

/-- Notes pattern `^[-*]\s*(\d+)\s*x\s*(.+)$`. -/
def notesP1 (s : List Char) : Option ParsedLineItem :=
  (afterMarker s).bind fun r1 =>
    (takeCount r1).bind fun qr =>
      (expectX qr.2).bind fun r3 =>
        (matchDotPlus r3).map fun cap => ⟨trimChars cap, qr.1, some s⟩

/-- Notes pattern `^(\d+)\s*x\s*(.+)$`. -/
def notesP2 (s : List Char) : Option ParsedLineItem :=
  (leadingDigits s).bind fun qr =>
    (expectX qr.2).bind fun r3 =>
      (matchDotPlus r3).map fun cap => ⟨trimChars cap, qr.1, some s⟩

/-- Notes pattern `^[-*]\s*(.+)$` (implicit quantity 1). -/
def notesP3 (s : List Char) : Option ParsedLineItem :=
  (afterMarker s).bind fun r1 =>
    (matchDotPlus r1).map fun cap => ⟨trimChars cap, 1, some s⟩

/-- One (trimmed, nonempty) notes line: first matching pattern wins. -/
def parseNotesLine (s : List Char) : Option ParsedLineItem :=
  match notesP1 s with
  | some it => some it
  | none =>
    match notesP2 s with
    | some it => some it
    | none => notesP3 s

/-- `parseItemsFromNotes` from the source. -/
def parseItemsFromNotes (cell : List Char) : List ParsedLineItem :=
  (splitLines cell).filterMap fun line =>
    let s := trimChars line
    if s.isEmpty then none else parseNotesLine s

/- ### Consolidation -/

/-- `it.quantity || 1`: an explicit 0 counts as 1 here. -/
def jsOr1 (n : Nat) : Nat := if n = 0 then 1 else n

/-- `Map.set(key, (get(key) || 0) + inc)`: insertion-ordered upsert. -/
def upsertAdd : List (List Char × Nat) → List Char → Nat → List (List Char × Nat)
  | [], k, q => [(k, q)]
  | (k1, q1) :: rest, k, q =>
    if k1 = k then (k1, q1 + q) :: rest else (k1, q1) :: upsertAdd rest k q

def buildQtyMap (parsed : List ParsedLineItem) : List (List Char × Nat) :=
  parsed.foldl (fun m it => upsertAdd m (lowerStr it.name) (jsOr1 it.quantity)) []

/-- The display item built for one consolidated key/total pair: the name is
the first original-cased spelling found in the parsed sequence (falling back
to the key if that spelling is empty). -/
def dispItem (parsed : List ParsedLineItem) (kq : List Char × Nat) : ParsedLineItem :=
  ⟨((parsed.find? (fun p => lowerStr p.name = kq.1)).map
      (fun p => if p.name.isEmpty then kq.1 else p.name)).getD kq.1,
    kq.2, none⟩

/-- The consolidation step of `getParsedLineItems`: merge items by lowercased
name, summing `quantity || 1`; display name is the first original-cased
spelling (falling back to the key if that spelling is empty). -/
def consolidate (parsed : List ParsedLineItem) : List ParsedLineItem :=
  (buildQtyMap parsed).map (dispItem parsed)

/-- First-match lookup in an association list, defaulting to 0 (the observable
read-out of the consolidation `Map`). -/
def lookup0 : List (List Char × Nat) → List Char → Nat
  | [], _ => 0
  | (k1, q1) :: rest, k => if k1 = k then q1 else lookup0 rest k

/-- The total effective quantity (`quantity || 1`) carried by an item list
under one case-folded name key. -/
def keyTotal (k : List Char) (items : List ParsedLineItem) : Nat :=
  ((items.filter (fun it => lowerStr it.name = k)).map (fun it => jsOr1 it.quantity)).sum

/- ### `getParsedLineItems` -/

def offlineSyns : List (List Char) :=
  [chars "Offline Order Items", chars "Items", chars "Products Ordered",
    chars "Add Offline Order", chars "Add Order"]

def notesSyns : List (List Char) := [chars "Notes", chars "Special Instructions"]

/-- `getParsedLineItems` from the source: a nonempty injected
`__itemsForEvent` array is returned as-is; otherwise the offline cell is
parsed, the notes cell is the fallback when that yields zero items, and the
result is consolidated. -/
def getParsedLineItems (row : Row) : List ParsedLineItem :=
  match rowGet row (chars "__itemsForEvent") with
  | some (.items (x :: xs)) => x :: xs
  | _ =>
    let offlineCand := getValueFromRow row offlineSyns
    let offlineCell := if cellTruthy offlineCand then offlineCand.getD (.js .undef)
      else .js (.str [])
    let notesCand := getValueFromRow row notesSyns
    let notesCell := if cellTruthy notesCand then notesCand.getD (.js .undef)
      else .js (.str [])
    let parsed : List ParsedLineItem :=
      match offlineCell with
      | .js (.str s) => if !(trimChars s).isEmpty then parseItemsFromOfflineCell s else []
      | _ => []
    let parsed2 : List ParsedLineItem :=
      if parsed.length = 0 then
        match notesCell with
        | .js (.str s) => if !(trimChars s).isEmpty then parseItemsFromNotes s else []
        | _ => []
      else parsed
    consolidate parsed2

/- ### SKU / title classification -/

structure SkuTitle where
  sku : List Char
  title : List Char
deriving DecidableEq

def isLowerAlpha (c : Char) : Bool := decide ('a' ≤ c) && decide (c ≤ 'z')

/-- `split(/\s*-\s*/)`: tokens separated by hyphens with adjacent whitespace
absorbed into the separator. -/
def splitHyphenAux : List Char → List Char → List Char → Bool → List (List Char)
  | [], acc, pend, afterSep =>
    if afterSep then [[]] else [(pend ++ acc).reverse]
  | c :: rest, acc, pend, afterSep =>
    if afterSep then
      if isWsChar c then splitHyphenAux rest [] [] true
      else if c = '-' then [] :: splitHyphenAux rest [] [] true
      else splitHyphenAux rest [c] [] false
    else
      if c = '-' then acc.reverse :: splitHyphenAux rest [] [] true
      else if isWsChar c then splitHyphenAux rest acc (c :: pend) false
      else splitHyphenAux rest (c :: (pend ++ acc)) [] false

def splitHyphen (s : List Char) : List (List Char) := splitHyphenAux s [] [] false

/-- One fold step of the classifier: tokens without a lowercase letter extend
the SKU until the first lowercase-bearing token starts the title. -/
def classifyStep (st : Bool × List (List Char) × List (List Char)) (token : List Char) :
    Bool × List (List Char) × List (List Char) :=
  if !st.1 && !(token.any isLowerAlpha) then (st.1, st.2.1 ++ [token], st.2.2)
  else (true, st.2.1, st.2.2 ++ [token])

/-- `classifySkuAndTitle` from the source. -/
def classifySkuAndTitle (name : List Char) : SkuTitle :=
  let raw := trimChars name
  let tokens := (splitHyphen raw).filter (fun t => !t.isEmpty)
  let st := tokens.foldl classifyStep (false, [], [])
  let sku := trimChars (List.intercalate ['-'] st.2.1)
  let title := trimChars (List.intercalate [' ', '-', ' '] st.2.2)
  ⟨sku, if title.isEmpty then raw else title⟩

/- ### Packaging classification and stats -/

def toUpperChar (c : Char) : Char :=
  if 'a' ≤ c ∧ c ≤ 'z' then Char.ofNat (c.toNat - 32) else c

def upperStr (s : List Char) : List Char := s.map toUpperChar

def isWordChar (c : Char) : Bool :=
  isDigitChar c || decide ('a' ≤ c) && decide (c ≤ 'z')
    || decide ('A' ≤ c) && decide (c ≤ 'Z') || c = '_'

/-- `/^CODE\b/i` against a string: case-insensitive leading match with a word
boundary after it. -/
def matchCodeWB (code s : List Char) : Bool :=
  code.isPrefixOf (upperStr s) &&
    (match (upperStr s).drop code.length with
      | [] => true
      | c :: _ => !isWordChar c)

/-- `/^(PKG|HAMP|BOX|BAG)\b/i.test(sku)`. -/
def isPackagingSku (sku : List Char) : Bool :=
  matchCodeWB (chars "PKG") sku || matchCodeWB (chars "HAMP") sku
    || matchCodeWB (chars "BOX") sku || matchCodeWB (chars "BAG") sku

structure JsStats where
  hampers : Nat
  units : Nat
deriving DecidableEq

/-- `computeStats` from the source: fold over the parsed items, adding
`quantity || 1` to the unit total, and also to the hamper total when the
classified SKU carries a packaging code. -/
def computeStats (row : Row) : JsStats :=
  (getParsedLineItems row).foldl
    (fun st it =>
      let q := jsOr1 it.quantity
      ⟨st.hampers + (if isPackagingSku (classifySkuAndTitle it.name).sku then q else 0),
        st.units + q⟩)
    ⟨0, 0⟩

/- ### The per-row event materializer (`handleFile` row loop) -/

/-- An emitted calendar event: title (the order number string), the delivery
day (`start = startOfDay`, `end = endOfDay` of the same day), and the derived
resource row. -/
structure OrderEvent where
  title : List Char
  date : CivilDate
  resource : Row
deriving DecidableEq

def orderNumberSyns : List (List Char) :=
  [chars "Order Number", chars "Order No", chars "Order#", chars "Order Id",
    chars "OrderID", chars "Order Alias"]

def deliveryDateSyns : List (List Char) :=
  [chars "Delivery Date", chars "Delivery Dt", chars "DeliveryDate", chars "Delivery",
    chars "Dispatch Date (First)"]

/-- Decimal digits of `n` (fuel-bounded; exact for `n < 10^32`, far beyond any
quantity or id in scope). -/
def natToCharsAux : Nat → Nat → List Char
  | 0, _ => []
  | fuel + 1, n =>
    if n < 10 then [digitChar n] else natToCharsAux fuel (n / 10) ++ [digitChar (n % 10)]

def natToChars (n : Nat) : List Char := natToCharsAux 32 n

def intToChars (i : Int) : List Char :=
  if i < 0 then '-' :: natToChars (-i).toNat else natToChars i.toNat

/-- JS `String(x)`.  Integers print exactly; non-integer rationals are printed
as `num/den` (JS shortest-float printing is not modelled — no claim touches
it); arrays of objects print as JS does (`[object Object]` joined by commas). -/
def jsToString : CellValue → List Char
  | .js .undef => chars "undefined"
  | .js (.num q) => if q.den = 1 then intToChars q.num
      else intToChars q.num ++ '/' :: natToChars q.den
  | .js (.str s) => s
  | .items l => List.intercalate [','] (l.map (fun _ => chars "[object Object]"))

def jsToStringO : Option CellValue → List Char
  | none => chars "undefined"
  | some c => jsToString c

/-- `String(getValueFromRow(r, ['Add Offline Order', 'Add Order']) ||
getValueFromRow(r, ['Offline Order Items', 'Items', 'Products Ordered']) || '')`. -/
def itemsCellOfRow (row : Row) : List Char :=
  let a := getValueFromRow row [chars "Add Offline Order", chars "Add Order"]
  let b := getValueFromRow row [chars "Offline Order Items", chars "Items",
    chars "Products Ordered"]
  if cellTruthy a then jsToStringO a else if cellTruthy b then jsToStringO b else []

/-- The leading per-item date tag `/^(\d{2}-\d{2}-\d{2})-(.+)$/`: the tag and
the remainder of the fragment. -/
def dateTagOf (p : List Char) : Option (List Char × List Char) :=
  match p with
  | a :: b :: h1 :: c :: d :: h2 :: e :: f :: h3 :: rest =>
    if isDigitChar a && isDigitChar b && h1 = '-' && isDigitChar c && isDigitChar d
        && h2 = '-' && isDigitChar e && isDigitChar f && h3 = '-'
        && !rest.isEmpty && !(rest.any (fun ch => ch = '\n' || ch = '\r')) then
      some ([a, b, h1, c, d, h2, e, f], rest)
    else none
  | _ => none

/-- `Map.set` with list append: insertion-ordered grouping. -/
def upsertApp : List (List Char × List (List Char)) → List Char → List Char →
    List (List Char × List (List Char))
  | [], k, v => [(k, [v])]
  | (k1, vs) :: rest, k, v =>
    if k1 = k then (k1, vs ++ [v]) :: rest else (k1, vs) :: upsertApp rest k v

/-- The `datedGroups` map of the source: fragments with a leading date tag,
grouped by tag, keys in first-seen order. -/
def buildDatedGroups (parts : List (List Char)) : List (List Char × List (List Char)) :=
  parts.foldl
    (fun m p => match dateTagOf p with | some (d, r) => upsertApp m d r | none => m) []

/-- The order in which distinct date tags first occur in the fragment list
(spec-side description of the emission order). -/
def firstSeenTags (parts : List (List Char)) : List (List Char) :=
  parts.foldl
    (fun acc p =>
      match dateTagOf p with
      | some (d, _) => if acc.contains d then acc else acc ++ [d]
      | none => acc) []

/-- The lookup of a possibly-absent delivery-date cell by `normalizeDate`:
`undefined` is falsy, arrays are neither numbers nor strings. -/
def normalizeDateCell (refYear : Int) : Option CellValue → Option CivilDate
  | none => none
  | some (.js jv) => normalizeDate refYear jv
  | some (.items _) => none

/-- The per-row body of `handleFile`'s event-materializing loop: rows without
a truthy order number are skipped; fragments with leading date tags yield one
event per distinct tag (tags that fail to normalize are dropped); otherwise
the row's delivery-date field yields a single event, or none at all if it
fails to normalize.  File I/O, XLSX decoding and the batch-level header check
around the loop are the external loader, out of scope per the spec. -/
def processRow (refYear : Int) (r : Row) : List OrderEvent :=
  let orderNumber := getValueFromRow r orderNumberSyns
  let deliveryRawFallback := getValueFromRow r deliveryDateSyns
  if !cellTruthy orderNumber then []
  else
    let allItemsCell := itemsCellOfRow r
    let parts := splitItemsList allItemsCell
    let datedGroups := buildDatedGroups parts
    if !datedGroups.isEmpty then
      datedGroups.filterMap fun g =>
        match normalizeDate refYear (.str g.1) with
        | none => none
        | some delivery =>
          some ⟨jsToStringO orderNumber, delivery,
            setKey (setKey (setKey r (chars "Order Number")
                (.js (.str (jsToStringO orderNumber))))
              (chars "Delivery Date") (.js (.str g.1)))
              (chars "__itemsForEvent")
              (.items (parseItemsFromOfflineCell (List.intercalate [',', ' '] g.2)))⟩
    else
      match normalizeDateCell refYear deliveryRawFallback with
      | none => []
      | some delivery =>
        [⟨jsToStringO orderNumber, delivery,
          setKey (setKey r (chars "Order Number") (.js (.str (jsToStringO orderNumber))))
            (chars "Delivery Date") (deliveryRawFallback.getD (.js .undef))⟩]

-- concrete anchors
example : civilFromDays 0 = ⟨1970, 1, 1⟩ := by decide

example : civilFromDays 19723 = ⟨2024, 1, 1⟩ := by decide

example : civilFromDays (-1) = ⟨1969, 12, 31⟩ := by decide

example : civilFromDays 20364 = ⟨2025, 10, 3⟩ := by decide

example : civilFromDays 11016 = ⟨2000, 2, 29⟩ := by decide

example : civilFromDays 47540 = ⟨2100, 2, 28⟩ := by decide

example : civilFromDays 47541 = ⟨2100, 3, 1⟩ := by decide

example : daysFromCivil 1970 1 1 = 0 := by decide

example : daysFromCivil 2024 2 29 = 19782 := by decide

example : civilFromDays 19782 = ⟨2024, 2, 29⟩ := by decide

theorem dos_step (y : Nat) :
    dos (y + 1) = dos y + 365 + (if (y + 1) % 4 = 0 ∧ (y + 1) % 100 ≠ 0 then 1 else 0) := by
  unfold dos
  split <;> omega

theorem longYoe_iff (y : Nat) :
    longYoe y = true ↔ ((y + 1) % 4 = 0 ∧ (y + 1) % 100 ≠ 0) ∨ y = 399 := by
  unfold longYoe
  simp

theorem dos_le_365 (y : Nat) : 365 * y ≤ dos y ∧ dos y ≤ 365 * y + y / 4 := by
  unfold dos
  omega

/-- Validity of the era-year decomposition. -/
theorem yoeOfDoe_spec (doe : Nat) (h : doe ≤ 146096) :
    dos (yoeOfDoe doe) ≤ doe ∧
    doe - dos (yoeOfDoe doe) ≤ 364 + (if longYoe (yoeOfDoe doe) then 1 else 0) ∧
    yoeOfDoe doe ≤ 399 := by
  have hy1 : 365 * (doe / 365) ≤ doe ∧ doe < 365 * (doe / 365) + 365 := by omega
  have hcap : doe / 365 ≤ 400 := by omega
  by_cases hA : dos (doe / 365) ≤ doe
  · by_cases hB : doe / 365 ≤ 399
    · have hyoe : yoeOfDoe doe = doe / 365 := by
        unfold yoeOfDoe
        simp only [if_pos hA]
        omega
      rw [hyoe]
      have := dos_le_365 (doe / 365)
      refine ⟨hA, ?_, hB⟩
      have : doe - dos (doe / 365) ≤ 364 := by omega
      split <;> omega
    · -- doe / 365 = 400, clamp to 399
      have h400 : doe / 365 = 400 := by omega
      have hyoe : yoeOfDoe doe = 399 := by
        unfold yoeOfDoe
        simp only [if_pos hA]
        omega
      rw [hyoe]
      have hdos : dos 399 = 145731 := by unfold dos; omega
      have hlong : longYoe 399 = true := by unfold longYoe; simp
      rw [hdos, hlong]
      simp only [if_pos rfl, if_true]
      omega
  · -- correction branch: yoe = doe / 365 - 1
    have hy1pos : 1 ≤ doe / 365 := by
      by_contra hc
      have : doe / 365 = 0 := by omega
      rw [this] at hA
      unfold dos at hA
      omega
    have hyoe : yoeOfDoe doe = doe / 365 - 1 := by
      unfold yoeOfDoe
      simp only [if_neg hA]
      have h1 : dos (doe / 365) ≤ dos 400 := by unfold dos; omega
      have h2 : dos 400 = 146096 := by unfold dos; omega
      -- if doe/365 - 1 were ≥ 400 then dos (doe/365) > 146096 ≥ ... contradiction route:
      have h3 : doe / 365 - 1 ≤ 399 := by
        rcases Nat.lt_or_ge (doe / 365) 401 with hlt | hge
        · omega
        · exfalso
          have : 365 * 401 ≤ 365 * (doe / 365) := by
            exact Nat.mul_le_mul_left 365 hge
          omega
      omega
    rw [hyoe]
    have hstep : dos (doe / 365 - 1 + 1) = dos (doe / 365 - 1) + 365 +
        (if (doe / 365 - 1 + 1) % 4 = 0 ∧ (doe / 365 - 1 + 1) % 100 ≠ 0 then 1 else 0) :=
      dos_step _
    have heq : doe / 365 - 1 + 1 = doe / 365 := by omega
    rw [heq] at hstep
    have hlow : dos (doe / 365 - 1) ≤ doe := by
      have := dos_le_365 (doe / 365 - 1)
      omega
    refine ⟨hlow, ?_, by omega⟩
    have hlong : ((doe / 365) % 4 = 0 ∧ (doe / 365) % 100 ≠ 0) →
        longYoe (doe / 365 - 1) = true := by
      intro hc
      rw [longYoe_iff]
      left
      omega
    by_cases hc : (doe / 365) % 4 = 0 ∧ (doe / 365) % 100 ≠ 0
    · rw [if_pos (hlong hc)]
      rw [if_pos hc] at hstep
      omega
    · rw [if_neg hc] at hstep
      split <;> omega

/-- The era-year decomposition recovers a (yoe, doy) pair in range. -/
theorem yoeOfDoe_inv (yoe doy : Nat) (hy : yoe ≤ 399)
    (hd : doy ≤ 364 + (if longYoe yoe then 1 else 0)) :
    yoeOfDoe (dos yoe + doy) = yoe ∧ dos yoe + doy ≤ 146096 := by
  have hdosv := dos_le_365 yoe
  have hd365 : doy ≤ 365 := by split at hd <;> omega
  have hbound : dos yoe + doy ≤ 146096 := by
    have : dos yoe ≤ dos 399 := by unfold dos; omega
    have h399 : dos 399 = 145731 := by unfold dos; omega
    rcases Nat.lt_or_ge yoe 399 with hlt | hge
    · have : dos (yoe + 1) ≤ dos 399 := by unfold dos; omega
      have hstep := dos_step yoe
      have : doy ≤ 364 + 1 := by omega
      -- sharpen: doy ≤ 364 unless long; and long nonfinal year means step = 366
      by_cases hL : longYoe yoe = true
      · rw [if_pos hL] at hd
        rw [longYoe_iff] at hL
        rcases hL with hL | hL
        · rw [if_pos hL] at hstep
          omega
        · omega
      · rw [if_neg (by simp_all)] at hd
        omega
    · have : yoe = 399 := by omega
      subst this
      omega
  refine ⟨?_, hbound⟩
  -- quotient estimate
  have hq : (dos yoe + doy) / 365 = yoe ∨ (dos yoe + doy) / 365 = yoe + 1 := by
    have h1 : 365 * yoe ≤ dos yoe + doy := by omega
    have h2 : dos yoe + doy < 365 * (yoe + 2) := by omega
    omega
  unfold yoeOfDoe
  rcases hq with hq | hq
  · rw [hq, if_pos (by omega)]
    omega
  · rw [hq]
    by_cases hcase : yoe = 399
    · subst hcase
      -- min (..) 399 = 399 whichever branch
      split <;> omega
    · -- yoe ≤ 398: dos (yoe+1) > dos yoe + doy, so correction fires
      have hstep := dos_step yoe
      have hnot : ¬ dos (yoe + 1) ≤ dos yoe + doy := by
        by_cases hc : (yoe + 1) % 4 = 0 ∧ (yoe + 1) % 100 ≠ 0
        · rw [if_pos hc] at hstep
          -- long year: doy ≤ 365
          omega
        · rw [if_neg hc] at hstep
          -- short year: need doy ≤ 364
          have : doy ≤ 364 := by
            by_cases hL : longYoe yoe = true
            · rw [longYoe_iff] at hL
              rcases hL with hL | hL
              · exact absurd hL hc
              · exact absurd hL hcase
            · rw [if_neg (by simp_all)] at hd
              exact hd
          omega
      rw [if_neg hnot]
      omega

theorem mp_day_spec (doy : Nat) (h : doy ≤ 364) :
    mpOfDoy doy ≤ 11 ∧ 1 ≤ dayOfDoy doy ∧ dayOfDoy doy ≤ 31
    ∧ (mpOfDoy doy = 11 → dayOfDoy doy ≤ 28)
    ∧ (mpOfDoy doy = 1 ∨ mpOfDoy doy = 3 ∨ mpOfDoy doy = 6 ∨ mpOfDoy doy = 8 →
        dayOfDoy doy ≤ 30) := by
  unfold dayOfDoy mpOfDoy
  omega

theorem mp_day_365 : mpOfDoy 365 = 11 ∧ dayOfDoy 365 = 29 := by decide

theorem monthOfMp_le (mp : Nat) (h : mp ≤ 11) : 1 ≤ monthOfMp mp ∧ monthOfMp mp ≤ 12 := by
  unfold monthOfMp
  split <;> omega

/-- Leap status transfers between a civil year and its March-based era year. -/
theorem isLeapJs_iff_longYoe (era yoe : Nat) (hy : yoe ≤ 399) :
    isLeapJs ((yoe : Int) + (era : Int) * 400 + 1) = true ↔ longYoe yoe = true := by
  rw [longYoe_iff]
  unfold isLeapJs
  simp only [Bool.or_eq_true, Bool.and_eq_true, beq_iff_eq, bne_iff_ne, ne_eq]
  omega

theorem civilOfEraDoe_def (era doe : Nat) :
    civilOfEraDoe era doe =
      ⟨(yoeOfDoe doe : Int) + (era : Int) * 400 +
          (if monthOfMp (mpOfDoy (doe - dos (yoeOfDoe doe))) ≤ 2 then 1 else 0),
        monthOfMp (mpOfDoy (doe - dos (yoeOfDoe doe))),
        dayOfDoy (doe - dos (yoeOfDoe doe))⟩ := rfl

/-- `civilOfEraDoe` yields a valid calendar date. -/
theorem civilOfEraDoe_valid (era doe : Nat) (h : doe ≤ 146096) :
    1 ≤ (civilOfEraDoe era doe).month ∧ (civilOfEraDoe era doe).month ≤ 12 ∧
    1 ≤ (civilOfEraDoe era doe).day ∧
    (civilOfEraDoe era doe).day ≤
      daysInMonth (civilOfEraDoe era doe).year (civilOfEraDoe era doe).month := by
  obtain ⟨hs1, hs2, hs3⟩ := yoeOfDoe_spec doe h
  rw [civilOfEraDoe_def]
  dsimp only
  set yoe := yoeOfDoe doe with hyoe
  set doy := doe - dos yoe with hdoy
  by_cases h365 : doy = 365
  · -- leap day: 29 Feb of a leap civil year
    have hlong : longYoe yoe = true := by
      by_contra hc
      rw [if_neg hc] at hs2
      omega
    have hmonth : monthOfMp (mpOfDoy doy) = 2 := by
      rw [h365, mp_day_365.1]
      decide
    have hday : dayOfDoy doy = 29 := by
      rw [h365]
      exact mp_day_365.2
    rw [hmonth, hday]
    have hif : (if (2:Nat) ≤ 2 then (1:Int) else 0) = 1 := by norm_num
    rw [hif]
    have hleap := (isLeapJs_iff_longYoe era yoe hs3).2 hlong
    refine ⟨by norm_num, by norm_num, by norm_num, ?_⟩
    simp only [daysInMonth, if_pos rfl, hleap, if_true]
    omega
  · have hdle : doy ≤ 364 := by
      split at hs2 <;> omega
    obtain ⟨hm1, hd1, hd31, hfeb, h30⟩ := mp_day_spec doy hdle
    obtain ⟨hmo1, hmo2⟩ := monthOfMp_le (mpOfDoy doy) hm1
    refine ⟨hmo1, hmo2, hd1, ?_⟩
    -- case on the March-based month index
    interval_cases hmp : mpOfDoy doy <;>
      simp_all [monthOfMp, daysInMonth] <;> split <;> omega

theorem daysFromCivil_def (y : Int) (m d : Nat) :
    daysFromCivil y m d =
      (((if m ≤ 2 then y - 1 else y).toNat / 400 : Nat) : Int) * 146097 +
        ((dos ((if m ≤ 2 then y - 1 else y).toNat % 400) + doyOfMd m d : Nat) : Int)
        - 719468 := rfl

theorem mp_inverse (mz d : Nat) (hmz : mz ≤ 11) (hd1 : 1 ≤ d)
    (hdl : d ≤ (if mz = 11 then 29 else if mz = 1 ∨ mz = 3 ∨ mz = 6 ∨ mz = 8 then 30 else 31)) :
    mpOfDoy ((153 * mz + 2) / 5 + d - 1) = mz ∧ dayOfDoy ((153 * mz + 2) / 5 + d - 1) = d := by
  have hmp : mpOfDoy ((153 * mz + 2) / 5 + d - 1) = mz := by
    unfold mpOfDoy
    interval_cases mz <;> simp_all <;> omega
  refine ⟨hmp, ?_⟩
  unfold dayOfDoy
  rw [hmp]
  interval_cases mz <;> simp_all <;> omega

theorem daysInMonth_le_march (Y : Int) (m : Nat) (h1 : 1 ≤ m) (h2 : m ≤ 12) :
    daysInMonth Y m ≤ (if (if 2 < m then m - 3 else m + 9) = 11 then 29
      else if (if 2 < m then m - 3 else m + 9) = 1 ∨ (if 2 < m then m - 3 else m + 9) = 3
        ∨ (if 2 < m then m - 3 else m + 9) = 6 ∨ (if 2 < m then m - 3 else m + 9) = 8
      then 30 else 31) := by
  unfold daysInMonth
  interval_cases m <;> (norm_num; try (split <;> omega))

theorem daysInMonth_le_31 (Y : Int) (m : Nat) (h1 : 1 ≤ m) (h2 : m ≤ 12) :
    daysInMonth Y m ≤ 31 := by
  unfold daysInMonth
  interval_cases m <;> (norm_num; try (split <;> omega))

theorem doyOfMd_le_336 (m d : Nat) (h1 : 1 ≤ m) (h2 : m ≤ 12) (hne : m ≠ 2) (hd : d ≤ 31) :
    doyOfMd m d ≤ 336 := by
  unfold doyOfMd
  interval_cases m <;> first
    | omega
    | (norm_num; omega)

theorem doyOfMd_feb (d : Nat) : doyOfMd 2 d = 337 + d - 1 := by
  unfold doyOfMd
  norm_num

/-- Roundtrip: converting a valid civil date (year ≥ 1) to a day number and back
is the identity. -/
theorem civil_roundtrip (Y : Int) (m d : Nat) (hY : 1 ≤ Y) (hm1 : 1 ≤ m) (hm2 : m ≤ 12)
    (hd1 : 1 ≤ d) (hdm : d ≤ daysInMonth Y m) :
    civilFromDays (daysFromCivil Y m d) = ⟨Y, m, d⟩ := by
  rw [daysFromCivil_def]
  set ysn := (if m ≤ 2 then Y - 1 else Y).toNat with hysn
  set era := ysn / 400 with hera
  set yoe := ysn % 400 with hyoe2
  set doyv := doyOfMd m d with hdoyv
  have hyoele : yoe ≤ 399 := by omega
  have hysnY : (ysn : Int) = if m ≤ 2 then Y - 1 else Y := by
    rw [hysn]
    split <;> omega
  have hsplit : ysn = 400 * era + yoe := by omega
  have hd31 : d ≤ 31 := le_trans hdm (daysInMonth_le_31 Y m hm1 hm2)
  -- bound the day-of-March-year, with the long-year side condition
  have hdoyb : doyv ≤ 364 + (if longYoe yoe then 1 else 0) := by
    by_cases hmc : m = 2
    · subst hmc
      have hdz : doyv = 337 + d - 1 := doyOfMd_feb d
      by_cases hleap : isLeapJs Y = true
      · by_cases hd28 : d ≤ 28
        · split <;> omega
        · -- d = 29, leap year: long March year
          have hYeq : Y = (yoe : Int) + (era : Int) * 400 + 1 := by
            rw [if_pos (by norm_num : (2:Nat) ≤ 2)] at hysnY
            push_cast [hsplit] at hysnY ⊢
            omega
          have hlong : longYoe yoe = true := by
            rw [← isLeapJs_iff_longYoe era yoe hyoele, ← hYeq]
            exact hleap
          rw [if_pos hlong]
          have : d ≤ 29 := by
            simp only [daysInMonth, if_pos rfl, hleap, if_true] at hdm
            omega
          omega
      · have : d ≤ 28 := by
          simp only [daysInMonth, if_pos rfl] at hdm
          rw [if_neg hleap] at hdm
          exact hdm
        split <;> omega
    · have := doyOfMd_le_336 m d hm1 hm2 hmc hd31
      split <;> omega
  obtain ⟨hinv, hle⟩ := yoeOfDoe_inv yoe doyv hyoele hdoyb
  -- reduce the day-number argument of civilFromDays
  have harg : ((era : Int) * 146097 + ((dos yoe + doyv : Nat) : Int) - 719468 + 719468).toNat
      = 146097 * era + (dos yoe + doyv) := by omega
  unfold civilFromDays
  rw [harg]
  have hdiv : (146097 * era + (dos yoe + doyv)) / 146097 = era := by omega
  have hmod : (146097 * era + (dos yoe + doyv)) % 146097 = dos yoe + doyv := by omega
  rw [hdiv, hmod, civilOfEraDoe_def, hinv]
  have hdoy2 : dos yoe + doyv - dos yoe = doyv := by omega
  rw [hdoy2]
  -- month and day extraction
  have hmz : doyv = (153 * (if 2 < m then m - 3 else m + 9) + 2) / 5 + d - 1 := by
    rw [hdoyv]; rfl
  have hmzb : (if 2 < m then m - 3 else m + 9) ≤ 11 := by split <;> omega
  have hdlb : d ≤ (if (if 2 < m then m - 3 else m + 9) = 11 then 29
      else if (if 2 < m then m - 3 else m + 9) = 1 ∨ (if 2 < m then m - 3 else m + 9) = 3
        ∨ (if 2 < m then m - 3 else m + 9) = 6 ∨ (if 2 < m then m - 3 else m + 9) = 8
      then 30 else 31) :=
    le_trans hdm (daysInMonth_le_march Y m hm1 hm2)
  obtain ⟨hmpv, hdayv⟩ := mp_inverse _ d hmzb hd1 hdlb
  rw [hmz, hmpv, hdayv]
  have hmonth : monthOfMp (if 2 < m then m - 3 else m + 9) = m := by
    unfold monthOfMp
    split <;> split <;> omega
  rw [hmonth]
  -- final structure equality
  have hyear : (yoe : Int) + (era : Int) * 400 + (if m ≤ 2 then 1 else 0) = Y := by
    by_cases hmc : m ≤ 2
    · rw [if_pos hmc]
      rw [if_pos hmc] at hysnY
      push_cast [hsplit] at hysnY
      omega
    · rw [if_neg hmc]
      rw [if_neg hmc] at hysnY
      push_cast [hsplit] at hysnY
      omega
  rw [hyear]

theorem civilFromDays_valid (z : Int) :
    1 ≤ (civilFromDays z).month ∧ (civilFromDays z).month ≤ 12 ∧
    1 ≤ (civilFromDays z).day ∧
    (civilFromDays z).day ≤ daysInMonth (civilFromDays z).year (civilFromDays z).month :=
  civilOfEraDoe_valid _ _ (by omega)

theorem digitChar_spec (v : Nat) (h : v ≤ 9) :
    isDigitChar (digitChar v) = true ∧ digitVal (digitChar v) = v ∧
    isWsChar (digitChar v) = false ∧ digitChar v ≠ '-' := by
  interval_cases v <;> refine ⟨by decide, by decide, by decide, by decide⟩

theorem trimChars_eq_self (s : List Char) (h : ∀ c ∈ s, isWsChar c = false) :
    trimChars s = s := by
  unfold trimChars
  have h1 : s.dropWhile isWsChar = s := by
    cases s with
    | nil => rfl
    | cons a l =>
      rw [List.dropWhile_cons]
      rw [h a (by simp)]
      simp
  rw [h1]
  have h2 : s.reverse.dropWhile isWsChar = s.reverse := by
    cases hs : s.reverse with
    | nil => rfl
    | cons a l =>
      rw [List.dropWhile_cons]
      have ha : a ∈ s := by
        have : a ∈ s.reverse := by rw [hs]; simp
        simpa using this
      rw [h a ha]
      simp
  rw [h2, List.reverse_reverse]

theorem strictShape_fmt (dd mm yy : Nat) (h1 : dd < 100) (h2 : mm < 100) (h3 : yy < 100) :
    strictShape (strictFmt dd mm yy) = some (dd, mm, yy) := by
  obtain ⟨q1, q2, q3, _⟩ := digitChar_spec (dd / 10) (by omega)
  obtain ⟨r1, r2, r3, _⟩ := digitChar_spec (dd % 10) (by omega)
  obtain ⟨q4, q5, _, _⟩ := digitChar_spec (mm / 10) (by omega)
  obtain ⟨r4, r5, _, _⟩ := digitChar_spec (mm % 10) (by omega)
  obtain ⟨q6, q7, _, _⟩ := digitChar_spec (yy / 10) (by omega)
  obtain ⟨r6, r7, _, _⟩ := digitChar_spec (yy % 10) (by omega)
  unfold strictFmt pad2 strictShape
  simp only [List.cons_append, List.nil_append]
  rw [if_pos (by simp_all)]
  rw [q2, r2, q5, r5, q7, r7]
  have e1 : 10 * (dd / 10) + dd % 10 = dd := by omega
  have e2 : 10 * (mm / 10) + mm % 10 = mm := by omega
  have e3 : 10 * (yy / 10) + yy % 10 = yy := by omega
  rw [e1, e2, e3]

theorem CivilDate.ext3 (x : CivilDate) (a : Int) (b c : Nat)
    (h1 : x.year = a) (h2 : x.month = b) (h3 : x.day = c) : x = ⟨a, b, c⟩ := by
  cases x
  simp_all

/-- Soundness of the strict rule: whatever it accepts matched the exact
two-digit pattern, passed the range checks, and denotes the valid calendar
date `(2000+yy, mm, dd)`. -/
theorem parseStrictDDMMYY_sound (s : List Char) (r : CivilDate)
    (h : parseStrictDDMMYY s = some r) :
    ∃ dd mm yy, strictShape s = some (dd, mm, yy) ∧
      1 ≤ dd ∧ dd ≤ 31 ∧ 1 ≤ mm ∧ mm ≤ 12 ∧
      dd ≤ daysInMonth (2000 + (yy : Int)) mm ∧ r = ⟨2000 + (yy : Int), mm, dd⟩ := by
  unfold parseStrictDDMMYY at h
  match hs : strictShape s with
  | none => rw [hs] at h; exact absurd h (by simp)
  | some (dd, mm, yy) =>
    rw [hs] at h
    simp only at h
    split at h
    · exact absurd h (by simp)
    · split at h
      · exact absurd h (by simp)
      · split at h
        · exact absurd h (by simp)
        · rename_i hmm hdd hchk
          push_neg at hchk
          obtain ⟨hy, hmo, hda⟩ := hchk
          have hval := civilFromDays_valid (daysFromCivil (2000 + (yy : Int)) (mm - 1 + 1) dd)
          have hrw : jsMakeDate (2000 + (yy : Int)) (mm - 1) dd =
              civilFromDays (daysFromCivil (2000 + (yy : Int)) (mm - 1 + 1) dd) := rfl
          rw [hrw] at hy hmo hda h
          have hmonth : (civilFromDays (daysFromCivil (2000 + (yy : Int)) (mm - 1 + 1) dd)).month
              = mm := by
            unfold getMonthIdx at hmo
            omega
          simp only [Option.some.injEq] at h
          subst h
          refine ⟨dd, mm, yy, rfl, by omega, by omega, by omega, by omega, ?_, ?_⟩
          · have h4 := hval.2.2.2
            rw [hy, hmonth, hda] at h4
            exact h4
          · exact CivilDate.ext3 _ _ _ _ hy hmonth hda

/-- Acceptance of the strict rule on a well-formed two-digit triple: the result
is `(2000+yy, mm, dd)` exactly when that is a real calendar date. -/
theorem parseStrictDDMMYY_fmt (dd mm yy : Nat) (hd1 : 1 ≤ dd) (hd2 : dd ≤ 31)
    (hm1 : 1 ≤ mm) (hm2 : mm ≤ 12) (hy : yy < 100) :
    parseStrictDDMMYY (strictFmt dd mm yy) =
      if dd ≤ daysInMonth (2000 + (yy : Int)) mm then
        some ⟨2000 + (yy : Int), mm, dd⟩
      else none := by
  unfold parseStrictDDMMYY
  rw [strictShape_fmt dd mm yy (by omega) (by omega) hy]
  simp only
  rw [if_neg (by omega), if_neg (by omega)]
  have hrw : jsMakeDate (2000 + (yy : Int)) (mm - 1) dd =
      civilFromDays (daysFromCivil (2000 + (yy : Int)) mm dd) := by
    unfold jsMakeDate
    rw [show mm - 1 + 1 = mm by omega]
  rw [hrw]
  by_cases hok : dd ≤ daysInMonth (2000 + (yy : Int)) mm
  · rw [if_pos hok]
    have hrt := civil_roundtrip (2000 + (yy : Int)) mm dd (by omega) hm1 hm2 hd1 hok
    rw [hrt]
    rw [if_neg (by unfold getMonthIdx; simp)]
  · rw [if_neg hok]
    rw [if_pos]
    by_contra hchk
    push_neg at hchk
    obtain ⟨hy2, hmo, hda⟩ := hchk
    have hval := civilFromDays_valid (daysFromCivil (2000 + (yy : Int)) mm dd)
    have hmonth : (civilFromDays (daysFromCivil (2000 + (yy : Int)) mm dd)).month = mm := by
      unfold getMonthIdx at hmo
      omega
    have h4 := hval.2.2.2
    rw [hy2, hmonth, hda] at h4
    exact hok h4

theorem convertExcel_eq_spec (serial : ℚ) :
    convertExcelSerialToDDMMYY serial = specSerialToDDMMYY serial := by
  unfold convertExcelSerialToDDMMYY specSerialToDDMMYY
  have h1 : (serial - 25569) * 86400 * 1000 / 86400000 = serial - 25569 := by
    field_simp
    ring
  rw [h1]
  have h2 : ⌊serial - 25569⌋ = ⌊serial⌋ - 25569 := by
    have := Int.floor_sub_int serial (25569 : Int)
    push_cast at this
    exact_mod_cast this
  rw [h2]

-- concrete sanity checks for the date layer
example : parseStrictDDMMYY (String.toList "10-03-25") = some ⟨2025, 3, 10⟩ := by decide

example : parseStrictDDMMYY (String.toList "32-01-25") = none := by decide

example : parseStrictDDMMYY (String.toList "10-13-25") = none := by decide

example : parseStrictDDMMYY (String.toList "29-02-25") = none := by decide

example : parseStrictDDMMYY (String.toList "29-02-24") = some ⟨2024, 2, 29⟩ := by decide

example : jsDateParse (String.toList "2025-03-10") = some ⟨2025, 3, 10⟩ := by decide

example : jsDateParse (String.toList "2025-02-30") = none := by decide

example : normalizeDate 2025 (.str (String.toList "10-03-25")) = some ⟨2025, 3, 10⟩ := by decide

example : normalizeDate 2025 (.str (String.toList "2025-03-10")) = some ⟨2025, 3, 10⟩ := by decide

example : normalizeDate 2025 (.str (String.toList "10-03-2025")) = some ⟨2025, 3, 10⟩ := by decide

example : normalizeDate 2025 (.str (String.toList "10/03/2025")) = some ⟨2025, 3, 10⟩ := by decide

example : normalizeDate 2025 (.str (String.toList "32-01-25")) = none := by decide

example : normalizeDate 2025 (.str (String.toList "10-13-25")) = none := by decide

example : parseStrictDDMMYY (specSerialToDDMMYY 45933) = some ⟨2025, 10, 3⟩ := by
  have h : (⌊(45933 : ℚ)⌋ : Int) = 45933 := by norm_num
  unfold specSerialToDDMMYY
  rw [h]
  decide

/- ### Claim C1: numeric and string date paths agree -/

/-- Truncating a year to `2000 + (year % 100)` preserves leapness. -/
theorem isLeapJs_transfer (y : Int) (h : isLeapJs y = true) :
    isLeapJs (2000 + y % 100) = true := by
  unfold isLeapJs at *
  simp only [Bool.or_eq_true, Bool.and_eq_true, beq_iff_eq, bne_iff_ne, ne_eq] at *
  omega

theorem daysInMonth_transfer (y : Int) (m : Nat) :
    daysInMonth y m ≤ daysInMonth (2000 + y % 100) m := by
  unfold daysInMonth
  by_cases hm : m = 2
  · rw [if_pos hm, if_pos hm]
    by_cases hl : isLeapJs y = true
    · simp [hl, isLeapJs_transfer y hl]
    · rw [if_neg hl]
      split <;> omega
  · rw [if_neg hm, if_neg hm]

theorem strictFmt_no_ws (dd mm yy : Nat) (h1 : dd < 100) (h2 : mm < 100) (h3 : yy < 100) :
    ∀ c ∈ strictFmt dd mm yy, isWsChar c = false := by
  intro c hc
  unfold strictFmt pad2 at hc
  simp only [List.cons_append, List.nil_append, List.mem_cons, List.not_mem_nil,
    or_false] at hc
  rcases hc with h | h | h | h | h | h | h | h <;>
    first
      | (subst h; exact (digitChar_spec _ (by omega)).2.2.1)
      | (subst h; decide)

theorem normalizeDate_num_inrange (refYear : Int) (q : ℚ) (h1 : 25000 < q) (h2 : q < 100000) :
    normalizeDate refYear (.num q) = parseStrictDDMMYY (convertExcelSerialToDDMMYY q) := by
  have h0 : ¬ (jsTruthy (JsValue.num q) = false) := by
    have hq0 : q ≠ 0 := by
      intro h
      rw [h] at h1
      norm_num at h1
    simp [jsTruthy, hq0]
  unfold normalizeDate
  rw [if_neg h0]
  simp only
  rw [if_pos ⟨h1, h2⟩]

theorem normalizeDate_str_strict (refYear : Int) (s : List Char) (d : CivilDate)
    (hne : s ≠ []) (htrim : trimChars s = s) (hp : parseStrictDDMMYY s = some d) :
    normalizeDate refYear (.str s) = some d := by
  have h0 : ¬ (jsTruthy (JsValue.str s) = false) := by
    unfold jsTruthy
    simp [hne]
  unfold normalizeDate
  rw [if_neg h0]
  simp only
  rw [htrim, hp]

/-- **C1.**  For every number `s` strictly between 25000 and 100000, the Date
Normalizer on the number `s` agrees with the Date Normalizer on the `DD-MM-YY`
string formatting the calendar date `s` encodes under the 1900-epoch
convention (serial 25569 = 1970-01-01 UTC, fractional part discarded); and the
source's serial-to-string conversion produces exactly that string. -/
theorem c1_serial_paths_agree (refYear : Int) (s : ℚ) (h1 : 25000 < s) (h2 : s < 100000) :
    normalizeDate refYear (.num s) = normalizeDate refYear (.str (specSerialToDDMMYY s)) ∧
    convertExcelSerialToDDMMYY s = specSerialToDDMMYY s := by
  refine ⟨?_, convertExcel_eq_spec s⟩
  obtain ⟨hv1, hv2, hv3, hv4⟩ := civilFromDays_valid (⌊s⌋ - 25569)
  set c := civilFromDays (⌊s⌋ - 25569) with hc
  have hd31 : c.day ≤ 31 := le_trans hv4 (daysInMonth_le_31 _ _ hv1 hv2)
  have hyy : (c.year % 100).toNat < 100 := by omega
  have hddm : c.day ≤ daysInMonth (2000 + (((c.year % 100).toNat : Nat) : Int)) c.month := by
    have hcast : (((c.year % 100).toNat : Nat) : Int) = c.year % 100 := by omega
    rw [hcast]
    exact le_trans hv4 (daysInMonth_transfer c.year c.month)
  have hfmt := parseStrictDDMMYY_fmt c.day c.month (c.year % 100).toNat hv3 hd31 hv1 hv2 hyy
  rw [if_pos hddm] at hfmt
  have hspec : specSerialToDDMMYY s = strictFmt c.day c.month (c.year % 100).toNat := rfl
  have hnum := normalizeDate_num_inrange refYear s h1 h2
  rw [hnum, convertExcel_eq_spec s, hspec]
  have hne : strictFmt c.day c.month (c.year % 100).toNat ≠ [] := by
    unfold strictFmt pad2
    simp
  have hnws := strictFmt_no_ws c.day c.month (c.year % 100).toNat (by omega) (by omega) hyy
  rw [normalizeDate_str_strict refYear _ _ hne (trimChars_eq_self _ hnws) hfmt, hfmt]

/-- Witness for C1 at serial 45933 with reference year 2025. -/
theorem c1_witness :
    normalizeDate 2025 (.num 45933) = normalizeDate 2025 (.str (specSerialToDDMMYY 45933)) ∧
    convertExcelSerialToDDMMYY 45933 = specSerialToDDMMYY 45933 :=
  c1_serial_paths_agree 2025 45933 (by norm_num) (by norm_num)

/- ### Claim C2: the strict DD-MM-YY rule -/

/-- **C2.**  The Date Normalizer's strict string rule accepts exactly the
two-digit `DD-MM-YY` pattern with day 1–31 and month 1–12, maps the year to
`2000+YY`, and re-validates the constructed date; `"10-03-25"` is March 10,
2025 (never October 3), while `"32-01-25"` and `"10-13-25"` normalize to
`none` even after all fallback formats, for every reference year. -/
theorem c2_strict_ddmmyy :
    (∀ refYear : Int,
      normalizeDate refYear (.str (String.toList "10-03-25")) = some ⟨2025, 3, 10⟩) ∧
    (∀ refYear : Int, normalizeDate refYear (.str (String.toList "32-01-25")) = none) ∧
    (∀ refYear : Int, normalizeDate refYear (.str (String.toList "10-13-25")) = none) ∧
    (∀ dd mm yy : Nat, 1 ≤ dd → dd ≤ 31 → 1 ≤ mm → mm ≤ 12 → yy < 100 →
      parseStrictDDMMYY (strictFmt dd mm yy) =
        if dd ≤ daysInMonth (2000 + (yy : Int)) mm then
          some ⟨2000 + (yy : Int), mm, dd⟩
        else none) ∧
    (∀ s r, parseStrictDDMMYY s = some r →
      ∃ dd mm yy, strictShape s = some (dd, mm, yy) ∧
        1 ≤ dd ∧ dd ≤ 31 ∧ 1 ≤ mm ∧ mm ≤ 12 ∧
        dd ≤ daysInMonth (2000 + (yy : Int)) mm ∧ r = ⟨2000 + (yy : Int), mm, dd⟩) := by
  refine ⟨fun _ => rfl, fun _ => rfl, fun _ => rfl,
    fun dd mm yy h1 h2 h3 h4 h5 => parseStrictDDMMYY_fmt dd mm yy h1 h2 h3 h4 h5,
    fun s r h => parseStrictDDMMYY_sound s r h⟩

/-- Witness for C2's universally quantified parts at `"10-03-25"`. -/
theorem c2_witness :
    parseStrictDDMMYY (strictFmt 10 3 25) =
      if 10 ≤ daysInMonth (2000 + (25 : Int)) 3 then some ⟨2000 + (25 : Int), 3, 10⟩
      else none :=
  c2_strict_ddmmyy.2.2.2.1 10 3 25 (by norm_num) (by norm_num) (by norm_num) (by norm_num)
    (by norm_num)

theorem normalizeDate_str_iso (refYear : Int) (s : List Char) (d : CivilDate)
    (hne : s ≠ []) (htrim : trimChars s = s) (hstrict : parseStrictDDMMYY s = none)
    (hg : isoGuard s = true) (hp : jsDateParse s = some d) :
    normalizeDate refYear (.str s) = some d := by
  have h0 : ¬ (jsTruthy (JsValue.str s) = false) := by
    unfold jsTruthy
    simp [hne]
  unfold normalizeDate
  rw [if_neg h0]
  simp only
  rw [htrim, hstrict, hg]
  simp only [if_true]
  rw [hp]

/-- Counterexample to C5 as stated: `"2025-03-10XX"` begins with a complete
ISO calendar-date prefix and is not accepted by the strict rule, yet the
Date Normalizer rejects it instead of returning March 10, 2025. -/
theorem c5_counterexample :
    isoGuard (trimChars (String.toList "2025-03-10XX")) = true ∧
    parseStrictDDMMYY (trimChars (String.toList "2025-03-10XX")) = none ∧
    normalizeDate 2025 (.str (String.toList "2025-03-10XX")) = none ∧
    normalizeDate 2025 (.str (String.toList "2025-03-10XX")) ≠ some ⟨2025, 3, 10⟩ := by
  refine ⟨by decide, by decide, by decide, by decide⟩

set_option maxHeartbeats 2000000 in
/-- **C5 (amended).**  A string that is exactly a valid ISO calendar date
`YYYY-MM-DD` (and such strings are never accepted by the strict DD-MM-YY
rule) normalizes to that calendar date at start of day — in particular
`"2025-03-10"` is March 10, 2025; but a string that merely begins with an ISO
prefix and continues with content `Date.parse` rejects can normalize to
`none`. -/
theorem c5_iso_dates (refYear : Int) (y mo dd : Nat) (hy : y ≤ 9999) (hy4 : 1000 ≤ y)
    (hm1 : 1 ≤ mo) (hm2 : mo ≤ 12) (hd1 : 1 ≤ dd) (hdm : dd ≤ daysInMonth (y : Int) mo) :
    normalizeDate refYear (.str (isoFmt y mo dd)) = some ⟨(y : Int), mo, dd⟩ ∧
    parseStrictDDMMYY (isoFmt y mo dd) = none := by
  have hd31 : dd ≤ 31 := le_trans hdm (daysInMonth_le_31 _ _ hm1 hm2)
  obtain ⟨a1, a2, a3, _⟩ := digitChar_spec (y / 1000) (by omega)
  obtain ⟨b1, b2, b3, _⟩ := digitChar_spec (y / 100 % 10) (by omega)
  obtain ⟨c1, c2, c3, _⟩ := digitChar_spec (y / 10 % 10) (by omega)
  obtain ⟨d1, d2, d3, _⟩ := digitChar_spec (y % 10) (by omega)
  obtain ⟨e1, e2, e3, _⟩ := digitChar_spec (mo / 10) (by omega)
  obtain ⟨f1, f2, f3, _⟩ := digitChar_spec (mo % 10) (by omega)
  obtain ⟨g1, g2, g3, _⟩ := digitChar_spec (dd / 10) (by omega)
  obtain ⟨i1, i2, i3, _⟩ := digitChar_spec (dd % 10) (by omega)
  have hstrict : parseStrictDDMMYY (isoFmt y mo dd) = none := rfl
  refine ⟨?_, hstrict⟩
  have hne : isoFmt y mo dd ≠ [] := by
    unfold isoFmt pad4
    simp
  have hnws : ∀ c ∈ isoFmt y mo dd, isWsChar c = false := by
    intro c hc
    unfold isoFmt pad4 pad2 at hc
    simp only [List.cons_append, List.nil_append, List.mem_cons, List.not_mem_nil,
      or_false] at hc
    rcases hc with h | h | h | h | h | h | h | h | h | h
    · subst h; exact a3
    · subst h; exact b3
    · subst h; exact c3
    · subst h; exact d3
    · subst h; decide
    · subst h; exact e3
    · subst h; exact f3
    · subst h; decide
    · subst h; exact g3
    · subst h; exact i3
  have hguard : isoGuard (isoFmt y mo dd) = true := by
    unfold isoFmt pad4 pad2 isoGuard
    simp only [List.cons_append, List.nil_append]
    simp [a1, b1, c1, d1, e1, f1, g1, i1]
  have hparse : jsDateParse (isoFmt y mo dd) = some ⟨(y : Int), mo, dd⟩ := by
    unfold isoFmt pad4 pad2 jsDateParse
    simp only [List.cons_append, List.nil_append]
    rw [if_pos (by simp [a1, b1, c1, d1, e1, f1, g1, i1])]
    rw [a2, b2, c2, d2, e2, f2, g2, i2]
    have ey : 1000 * (y / 1000) + 100 * (y / 100 % 10) + 10 * (y / 10 % 10) + y % 10 = y := by
      omega
    have em : 10 * (mo / 10) + mo % 10 = mo := by omega
    have ed : 10 * (dd / 10) + dd % 10 = dd := by omega
    rw [ey, em, ed]
    rw [if_pos ⟨hm1, hm2, hd1, hdm⟩]
  exact normalizeDate_str_iso refYear _ _ hne (trimChars_eq_self _ hnws) hstrict hguard hparse

/-- Witness for C5 (amended) at `"2025-03-10"`. -/
theorem c5_witness :
    normalizeDate 2025 (.str (isoFmt 2025 3 10)) = some ⟨(2025 : Int), 3, 10⟩ ∧
    isoFmt 2025 3 10 = String.toList "2025-03-10" :=
  ⟨(c5_iso_dates 2025 2025 3 10 (by norm_num) (by norm_num) (by norm_num) (by norm_num)
      (by norm_num) (by decide)).1, by decide⟩

-- sanity checks for the item layer
example : parseItemsFromOfflineCell (chars "SKU1-Widget A - 2, SKU2-Widget B") =
    [⟨chars "SKU1-Widget A", 2, some (chars "SKU1-Widget A - 2")⟩,
      ⟨chars "SKU2-Widget B", 1, some (chars "SKU2-Widget B")⟩] := by decide

example : parseItemsFromNotes (chars "- 2 x Gift Box\n* Card") =
    [⟨chars "Gift Box", 2, some (chars "- 2 x Gift Box")⟩,
      ⟨chars "Card", 1, some (chars "* Card")⟩] := by decide

example : parseItemsFromNotes (chars "1 x CB 200") =
    [⟨chars "CB 200", 1, some (chars "1 x CB 200")⟩] := by decide

example : classifySkuAndTitle (chars "PKG-BOX-Deluxe Hamper") =
    ⟨chars "PKG-BOX", chars "Deluxe Hamper"⟩ := by decide

example : classifySkuAndTitle (chars "ABC123") = ⟨chars "ABC123", chars "ABC123"⟩ := by
  decide

example : consolidate [⟨chars "X", 1, none⟩, ⟨chars "x", 2, none⟩] =
    [⟨chars "X", 3, none⟩] := by decide

example : isPackagingSku (chars "BOX") = true := by decide

example : isPackagingSku (chars "BOXY") = false := by decide

example : isPackagingSku (chars "PKG-BOX") = true := by decide

example : isPackagingSku (chars "SKU-BOX") = false := by decide

example : normalizeHeaderName (chars " Order_Number ") = chars "order number" := by decide

example : parseItemsFromOfflineCell (chars "Widget - 0") =
    [⟨chars "Widget", 0, some (chars "Widget - 0")⟩] := by decide

-- sanity checks for the materializer
example :
    (processRow 2025
        [(chars "Order Number", .js (.str (chars "ORD1"))),
          (chars "Delivery Date", .js (.str (chars "na"))),
          (chars "Offline Order Items",
            .js (.str (chars "10-03-25-SKU-A - 1,10-03-25-SKU-B - 1,11-03-25-SKU-C - 1")))]).map
      (fun e => (e.title, e.date, rowGet e.resource (chars "__itemsForEvent"))) =
    [(chars "ORD1", ⟨2025, 3, 10⟩, some (.items
        [⟨chars "SKU-A", 1, some (chars "SKU-A - 1")⟩,
          ⟨chars "SKU-B", 1, some (chars "SKU-B - 1")⟩])),
      (chars "ORD1", ⟨2025, 3, 11⟩, some (.items
        [⟨chars "SKU-C", 1, some (chars "SKU-C - 1")⟩]))] := by decide

example : processRow 2025 [(chars "Customer Name", .js (.str (chars "x")))] = [] := by decide

example : processRow 2025
    [(chars "Order Number", .js (.str (chars "O2"))),
      (chars "Delivery Date", .js (.str (chars "not a date")))] = [] := by decide

/- ### Claim C4: item quantities -/

theorem notesLine_raw (s : List Char) (it : ParsedLineItem)
    (h : parseNotesLine s = some it) : it.raw = some s := by
  unfold parseNotesLine at h
  split at h
  · rename_i it1 h1
    simp only [notesP1, Option.bind_eq_some, Option.map_eq_some'] at h1
    obtain ⟨r1, _, qr, _, r3, _, cap, _, heq⟩ := h1
    simp only [Option.some.injEq] at h
    rw [← h, ← heq]
  · split at h
    · rename_i it2 h2
      simp only [notesP2, Option.bind_eq_some, Option.map_eq_some'] at h2
      obtain ⟨qr, _, r3, _, cap, _, heq⟩ := h2
      simp only [Option.some.injEq] at h
      rw [← h, ← heq]
    · simp only [notesP3, Option.bind_eq_some, Option.map_eq_some'] at h
      obtain ⟨r1, _, cap, _, heq⟩ := h
      rw [← heq]

theorem notesLine_default_one (s : List Char) (it : ParsedLineItem)
    (h : parseNotesLine s = some it) (h1 : notesP1 s = none) (h2 : notesP2 s = none) :
    it.quantity = 1 := by
  unfold parseNotesLine at h
  rw [h1, h2] at h
  simp only [notesP3, Option.bind_eq_some, Option.map_eq_some'] at h
  obtain ⟨r1, _, cap, _, heq⟩ := h
  rw [← heq]

/-- Counterexample to C4 as stated: an explicit trailing count of `0`
(offline grammar) or an explicit `0 x` count (notes grammar) produces a line
item with quantity 0 < 1. -/
theorem c4_counterexample :
    (parseItemsFromOfflineCell (chars "Widget - 0")).map (fun it => it.quantity) = [0] ∧
    (parseItemsFromNotes (chars "0 x Thing")).map (fun it => it.quantity) = [0] ∧
    ¬ (∀ it ∈ parseItemsFromOfflineCell (chars "Widget - 0"), 1 ≤ it.quantity) := by
  refine ⟨by decide, by decide, by decide⟩

/-- **C4 (amended).**  Every line item of the offline-items grammar takes its
quantity verbatim from the trailing count suffix when one is present (an
explicit `0` therefore yields quantity 0), and exactly 1 otherwise; every
line item of the notes grammar records its source line, and has quantity
exactly 1 whenever neither explicit-count pattern matched its line. -/
theorem c4_quantity_defaults :
    (∀ cell it, it ∈ parseItemsFromOfflineCell cell →
      ∃ frag, frag ∈ splitItemsList cell ∧ it = parseOfflineFragment frag ∧
        (parseQtySuffix frag = none → it.quantity = 1) ∧
        (∀ q pre, parseQtySuffix frag = some (q, pre) → it.quantity = q)) ∧
    (∀ cell it, it ∈ parseItemsFromNotes cell →
      ∃ s, it.raw = some s ∧ parseNotesLine s = some it ∧
        (notesP1 s = none → notesP2 s = none → it.quantity = 1)) := by
  constructor
  · intro cell it hmem
    unfold parseItemsFromOfflineCell at hmem
    obtain ⟨frag, hfrag, heq⟩ := List.mem_map.1 hmem
    refine ⟨frag, hfrag, heq.symm, ?_, ?_⟩
    · intro hnone
      rw [← heq]
      unfold parseOfflineFragment
      rw [hnone]
    · intro q pre hsome
      rw [← heq]
      unfold parseOfflineFragment
      rw [hsome]
  · intro cell it hmem
    unfold parseItemsFromNotes at hmem
    obtain ⟨line, hline, hsome⟩ := List.mem_filterMap.1 hmem
    simp only at hsome
    split at hsome
    · exact absurd hsome (by simp)
    · refine ⟨trimChars line, notesLine_raw _ _ hsome, hsome, ?_⟩
      intro h1 h2
      exact notesLine_default_one _ _ hsome h1 h2

/-- Witness for C4 (amended) on a concrete cell of each grammar. -/
theorem c4_witness :
    (∃ frag, frag ∈ splitItemsList (chars "Gift Box - 2") ∧
      (⟨chars "Gift Box", 2, some (chars "Gift Box - 2")⟩ : ParsedLineItem) =
        parseOfflineFragment frag ∧
      (parseQtySuffix frag = none →
        (⟨chars "Gift Box", 2, some (chars "Gift Box - 2")⟩ : ParsedLineItem).quantity = 1) ∧
      (∀ q pre, parseQtySuffix frag = some (q, pre) →
        (⟨chars "Gift Box", 2, some (chars "Gift Box - 2")⟩ : ParsedLineItem).quantity = q)) ∧
    (∃ s, (⟨chars "Card", 1, some (chars "* Card")⟩ : ParsedLineItem).raw = some s ∧
      parseNotesLine s = some ⟨chars "Card", 1, some (chars "* Card")⟩ ∧
      (notesP1 s = none → notesP2 s = none →
        (⟨chars "Card", 1, some (chars "* Card")⟩ : ParsedLineItem).quantity = 1)) :=
  ⟨c4_quantity_defaults.1 (chars "Gift Box - 2") ⟨chars "Gift Box", 2, some (chars "Gift Box - 2")⟩
      (by decide),
    c4_quantity_defaults.2 (chars "* Card") ⟨chars "Card", 1, some (chars "* Card")⟩ (by decide)⟩

/- ### Claim C8: the SKU/title classifier -/

theorem classify_fold_true (toks : List (List Char)) (s t : List (List Char)) :
    toks.foldl classifyStep (true, s, t) = (true, s, t ++ toks) := by
  induction toks generalizing t with
  | nil => simp
  | cons a l ih =>
    rw [List.foldl_cons]
    have hstep : classifyStep (true, s, t) a = (true, s, t ++ [a]) := by
      simp [classifyStep]
    rw [hstep, ih]
    simp

theorem classify_fold_false (toks : List (List Char)) (s : List (List Char)) :
    (toks.foldl classifyStep (false, s, [])).2 =
      (s ++ toks.takeWhile (fun t => !(t.any isLowerAlpha)),
        toks.dropWhile (fun t => !(t.any isLowerAlpha))) := by
  induction toks generalizing s with
  | nil => simp
  | cons a l ih =>
    rw [List.foldl_cons]
    by_cases hp : a.any isLowerAlpha = true
    · have hstep : classifyStep (false, s, []) a = (true, s, [a]) := by
        simp [classifyStep, hp]
      rw [hstep, classify_fold_true]
      simp [List.takeWhile_cons, List.dropWhile_cons, hp]
    · have hp' : a.any isLowerAlpha = false := by simpa using hp
      have hstep : classifyStep (false, s, []) a = (false, s ++ [a], []) := by
        simp [classifyStep, hp']
      rw [hstep, ih]
      simp [List.takeWhile_cons, List.dropWhile_cons, hp']

theorem mem_dropWhile_of_neg {α : Type} (p : α → Bool) (c : α) (s : List α)
    (hc : c ∈ s) (hp : p c = false) : c ∈ s.dropWhile p := by
  induction s with
  | nil => exact absurd hc (by simp)
  | cons a l ih =>
    rw [List.dropWhile_cons]
    by_cases ha : p a = true
    · rw [if_pos ha]
      rcases List.mem_cons.1 hc with h | h
      · subst h; rw [hp] at ha; exact absurd ha (by simp)
      · exact ih h
    · rw [if_neg ha]
      exact hc

theorem trimChars_ne_nil (s : List Char) (c : Char) (hc : c ∈ s)
    (hw : isWsChar c = false) : trimChars s ≠ [] := by
  unfold trimChars
  have h1 : c ∈ s.dropWhile isWsChar := mem_dropWhile_of_neg _ _ _ hc hw
  have h2 : c ∈ (s.dropWhile isWsChar).reverse := List.mem_reverse.2 h1
  have h3 : c ∈ (s.dropWhile isWsChar).reverse.dropWhile isWsChar :=
    mem_dropWhile_of_neg _ _ _ h2 hw
  exact List.ne_nil_of_mem (List.mem_reverse.2 h3)

/-- **C8.**  The classifier splits the trimmed name on whitespace-padded
hyphens, drops empty tokens, takes as SKU the maximal leading run of tokens
with no lowercase letter rejoined with `-`, takes as title the remaining
tokens joined with ` - `, falling back to the trimmed raw name when that run
covers everything; the two quoted examples hold, and for any name containing
a non-whitespace character the title is nonempty. -/
theorem c8_classifier :
    classifySkuAndTitle (chars "PKG-BOX-Deluxe Hamper") =
      ⟨chars "PKG-BOX", chars "Deluxe Hamper"⟩ ∧
    classifySkuAndTitle (chars "ABC123") = ⟨chars "ABC123", chars "ABC123"⟩ ∧
    (∀ name : List Char,
      classifySkuAndTitle name =
        ⟨trimChars (List.intercalate ['-']
            (((splitHyphen (trimChars name)).filter (fun t => !t.isEmpty)).takeWhile
              (fun t => !(t.any isLowerAlpha)))),
          if (trimChars (List.intercalate [' ', '-', ' ']
              (((splitHyphen (trimChars name)).filter (fun t => !t.isEmpty)).dropWhile
                (fun t => !(t.any isLowerAlpha))))).isEmpty then
            trimChars name
          else
            trimChars (List.intercalate [' ', '-', ' ']
              (((splitHyphen (trimChars name)).filter (fun t => !t.isEmpty)).dropWhile
                (fun t => !(t.any isLowerAlpha))))⟩) ∧
    (∀ name : List Char, (∃ c ∈ name, isWsChar c = false) →
      (classifySkuAndTitle name).title ≠ []) := by
  have hshape : ∀ name : List Char,
      classifySkuAndTitle name =
        ⟨trimChars (List.intercalate ['-']
            (((splitHyphen (trimChars name)).filter (fun t => !t.isEmpty)).takeWhile
              (fun t => !(t.any isLowerAlpha)))),
          if (trimChars (List.intercalate [' ', '-', ' ']
              (((splitHyphen (trimChars name)).filter (fun t => !t.isEmpty)).dropWhile
                (fun t => !(t.any isLowerAlpha))))).isEmpty then
            trimChars name
          else
            trimChars (List.intercalate [' ', '-', ' ']
              (((splitHyphen (trimChars name)).filter (fun t => !t.isEmpty)).dropWhile
                (fun t => !(t.any isLowerAlpha))))⟩ := by
    intro name
    have h := classify_fold_false
      ((splitHyphen (trimChars name)).filter (fun t => !t.isEmpty)) []
    rw [List.nil_append] at h
    simp only [classifySkuAndTitle]
    rw [h]
  refine ⟨by decide, by decide, hshape, ?_⟩
  intro name hex
  obtain ⟨c, hc, hw⟩ := hex
  rw [hshape name]
  simp only
  split
  · exact trimChars_ne_nil name c hc hw
  · rename_i hne
    intro hnil
    rw [hnil] at hne
    exact hne rfl

/-- Witness for C8 at a concrete name with a non-whitespace character. -/
theorem c8_witness : (classifySkuAndTitle (chars "Deluxe Hamper")).title ≠ [] :=
  c8_classifier.2.2.2 (chars "Deluxe Hamper") ⟨'D', by decide, by decide⟩

/- ### Claim C9: consolidation algebra -/

theorem jsOr1_pos (n : Nat) : 1 ≤ jsOr1 n := by
  unfold jsOr1; split <;> omega

theorem jsOr1_of_pos (n : Nat) (h : 1 ≤ n) : jsOr1 n = n := by
  unfold jsOr1; split <;> omega

theorem upsert_keys (m : List (List Char × Nat)) (k : List Char) (q : Nat) :
    (upsertAdd m k q).map Prod.fst =
      if k ∈ m.map Prod.fst then m.map Prod.fst else m.map Prod.fst ++ [k] := by
  induction m with
  | nil => simp [upsertAdd]
  | cons a rest ih =>
    obtain ⟨k1, q1⟩ := a
    by_cases hk : k1 = k
    · subst hk
      simp [upsertAdd]
    · have hstep : upsertAdd ((k1, q1) :: rest) k q = (k1, q1) :: upsertAdd rest k q := by
        simp [upsertAdd, hk]
      rw [hstep]
      by_cases hmem : k ∈ rest.map Prod.fst
      · simp [hmem, ih, hk]
      · simp [hmem, ih, hk, Ne.symm hk]

theorem upsert_mem_keys (m : List (List Char × Nat)) (k : List Char) (q : Nat)
    (x : List Char) :
    x ∈ (upsertAdd m k q).map Prod.fst ↔ x ∈ m.map Prod.fst ∨ x = k := by
  rw [upsert_keys]
  by_cases h : k ∈ m.map Prod.fst
  · rw [if_pos h]
    constructor
    · exact Or.inl
    · rintro (hx | rfl)
      · exact hx
      · exact h
  · rw [if_neg h]
    simp [List.mem_append]

theorem upsert_nodup (m : List (List Char × Nat)) (k : List Char) (q : Nat)
    (h : (m.map Prod.fst).Nodup) : ((upsertAdd m k q).map Prod.fst).Nodup := by
  rw [upsert_keys]
  by_cases hm : k ∈ m.map Prod.fst
  · rw [if_pos hm]; exact h
  · rw [if_neg hm]
    simp [List.nodup_append, h, hm]

theorem upsert_absent (m : List (List Char × Nat)) (k : List Char) (q : Nat)
    (h : k ∉ m.map Prod.fst) : upsertAdd m k q = m ++ [(k, q)] := by
  induction m with
  | nil => rfl
  | cons a rest ih =>
    obtain ⟨k1, q1⟩ := a
    simp only [List.map_cons, List.mem_cons] at h
    push_neg at h
    have hk : ¬ (k1 = k) := fun he => h.1 he.symm
    simp [upsertAdd, hk, ih h.2]

theorem upsert_vals (m : List (List Char × Nat)) (k : List Char) (q : Nat)
    (hm : ∀ kv ∈ m, 1 ≤ kv.2) (hq : 1 ≤ q) : ∀ kv ∈ upsertAdd m k q, 1 ≤ kv.2 := by
  induction m with
  | nil =>
    intro kv hkv
    simp only [upsertAdd, List.mem_singleton] at hkv
    subst hkv; exact hq
  | cons a rest ih =>
    obtain ⟨k1, q1⟩ := a
    intro kv hkv
    by_cases hk : k1 = k
    · simp only [upsertAdd, if_pos hk, List.mem_cons] at hkv
      rcases hkv with h | h
      · subst h
        have := hm (k1, q1) (by simp)
        simp only at this ⊢
        omega
      · exact hm kv (by simp [h])
    · simp only [upsertAdd, if_neg hk, List.mem_cons] at hkv
      rcases hkv with h | h
      · subst h; exact hm (k1, q1) (by simp)
      · exact ih (fun kv hkv => hm kv (by simp [hkv])) kv h

theorem lookup0_upsert (m : List (List Char × Nat)) (k : List Char) (q : Nat)
    (x : List Char) :
    lookup0 (upsertAdd m k q) x = if x = k then lookup0 m x + q else lookup0 m x := by
  induction m with
  | nil =>
    by_cases h : x = k
    · subst h; simp [upsertAdd, lookup0]
    · have h' : ¬ (k = x) := fun he => h he.symm
      simp [upsertAdd, lookup0, h, h']
  | cons a rest ih =>
    obtain ⟨k1, q1⟩ := a
    by_cases hk : k1 = k
    · subst hk
      by_cases hx : k1 = x
      · subst hx
        simp [upsertAdd, lookup0]
      · have hx' : ¬ (x = k1) := fun he => hx he.symm
        simp [upsertAdd, lookup0, hx, hx']
    · have hstep : upsertAdd ((k1, q1) :: rest) k q = (k1, q1) :: upsertAdd rest k q := by
        simp [upsertAdd, hk]
      rw [hstep]
      by_cases hx : k1 = x
      · subst hx
        simp [lookup0, hk]
      · simp [lookup0, hx, ih]

theorem lookup0_build_aux (parsed : List ParsedLineItem) (m : List (List Char × Nat))
    (k : List Char) :
    lookup0 (parsed.foldl (fun m it => upsertAdd m (lowerStr it.name) (jsOr1 it.quantity)) m) k
      = lookup0 m k + keyTotal k parsed := by
  induction parsed generalizing m with
  | nil => simp [keyTotal]
  | cons it rest ih =>
    rw [List.foldl_cons, ih, lookup0_upsert]
    unfold keyTotal
    rw [List.filter_cons]
    by_cases h : lowerStr it.name = k
    · rw [if_pos (show (decide (lowerStr it.name = k)) = true by simp [h]), if_pos h.symm,
        List.map_cons, List.sum_cons]
      omega
    · rw [if_neg (show ¬ (decide (lowerStr it.name = k)) = true by simp [h]),
        if_neg (show ¬ (k = lowerStr it.name) from fun he => h he.symm)]

theorem lookup0_build (parsed : List ParsedLineItem) (k : List Char) :
    lookup0 (buildQtyMap parsed) k = keyTotal k parsed := by
  unfold buildQtyMap
  rw [lookup0_build_aux]
  show 0 + keyTotal k parsed = keyTotal k parsed
  rw [Nat.zero_add]

theorem build_nodup_aux (parsed : List ParsedLineItem) (m : List (List Char × Nat))
    (h : (m.map Prod.fst).Nodup) :
    (((parsed.foldl (fun m it => upsertAdd m (lowerStr it.name) (jsOr1 it.quantity)) m)).map
      Prod.fst).Nodup := by
  induction parsed generalizing m with
  | nil => exact h
  | cons it rest ih =>
    rw [List.foldl_cons]
    exact ih _ (upsert_nodup _ _ _ h)

theorem build_nodup (parsed : List ParsedLineItem) :
    ((buildQtyMap parsed).map Prod.fst).Nodup :=
  build_nodup_aux parsed [] (by simp)

theorem build_vals_aux (parsed : List ParsedLineItem) (m : List (List Char × Nat))
    (h : ∀ kv ∈ m, 1 ≤ kv.2) :
    ∀ kv ∈ parsed.foldl (fun m it => upsertAdd m (lowerStr it.name) (jsOr1 it.quantity)) m,
      1 ≤ kv.2 := by
  induction parsed generalizing m with
  | nil => exact h
  | cons it rest ih =>
    rw [List.foldl_cons]
    exact ih _ (upsert_vals _ _ _ h (jsOr1_pos _))

theorem build_vals (parsed : List ParsedLineItem) :
    ∀ kv ∈ buildQtyMap parsed, 1 ≤ kv.2 :=
  build_vals_aux parsed [] (by simp)

theorem build_keysrc_aux (parsed : List ParsedLineItem) (m : List (List Char × Nat)) :
    ∀ kv ∈ parsed.foldl (fun m it => upsertAdd m (lowerStr it.name) (jsOr1 it.quantity)) m,
      kv.1 ∈ m.map Prod.fst ∨ ∃ it ∈ parsed, lowerStr it.name = kv.1 := by
  induction parsed generalizing m with
  | nil => intro kv hkv; exact Or.inl (List.mem_map.2 ⟨kv, hkv, rfl⟩)
  | cons it rest ih =>
    rw [List.foldl_cons]
    intro kv hkv
    rcases ih _ kv hkv with h | h
    · rcases (upsert_mem_keys m (lowerStr it.name) (jsOr1 it.quantity) kv.1).1 h with h2 | h2
      · exact Or.inl h2
      · exact Or.inr ⟨it, by simp, h2.symm⟩
    · obtain ⟨it2, h1, h2⟩ := h
      exact Or.inr ⟨it2, by simp [h1], h2⟩

theorem build_keysrc (parsed : List ParsedLineItem) :
    ∀ kv ∈ buildQtyMap parsed, ∃ it ∈ parsed, lowerStr it.name = kv.1 := by
  intro kv hkv
  rcases build_keysrc_aux parsed [] kv hkv with h | h
  · exact absurd h (by simp)
  · exact h

theorem find?_congr_mem {α : Type} (l : List α) (p q : α → Bool)
    (h : ∀ x ∈ l, p x = q x) : l.find? p = l.find? q := by
  induction l with
  | nil => rfl
  | cons a rest ih =>
    by_cases hq : q a = true
    · rw [List.find?_cons_of_pos _ (by rw [h a (by simp)]; exact hq),
        List.find?_cons_of_pos _ hq]
    · have hq' : q a = false := by simpa using hq
      rw [List.find?_cons_of_neg _ (by rw [h a (by simp)]; simp [hq']),
        List.find?_cons_of_neg _ (by simp [hq'])]
      exact ih (fun x hx => h x (by simp [hx]))

theorem find?_first_key (M : List (List Char × Nat)) (kq : List Char × Nat)
    (hnd : (M.map Prod.fst).Nodup) (hmem : kq ∈ M) :
    M.find? (fun kv => kv.1 = kq.1) = some kq := by
  induction M with
  | nil => exact absurd hmem (by simp)
  | cons a rest ih =>
    rw [List.map_cons, List.nodup_cons] at hnd
    by_cases ha : a.1 = kq.1
    · rw [List.find?_cons_of_pos _ (by simp [ha])]
      rcases List.mem_cons.1 hmem with h | h
      · rw [h]
      · exact absurd (ha ▸ List.mem_map.2 ⟨kq, h, rfl⟩) hnd.1
    · rw [List.find?_cons_of_neg _ (by simp [ha])]
      rcases List.mem_cons.1 hmem with h | h
      · exact absurd (show a.1 = kq.1 by rw [h]) ha
      · exact ih hnd.2 h

theorem dispItem_quantity (parsed : List ParsedLineItem) (kq : List Char × Nat) :
    (dispItem parsed kq).quantity = kq.2 := rfl

theorem dispItem_raw (parsed : List ParsedLineItem) (kq : List Char × Nat) :
    (dispItem parsed kq).raw = none := rfl

theorem dispItem_lower (parsed : List ParsedLineItem) (kq : List Char × Nat)
    (h : ∃ it ∈ parsed, lowerStr it.name = kq.1) :
    lowerStr (dispItem parsed kq).name = kq.1 := by
  have hsome : (parsed.find? (fun p => lowerStr p.name = kq.1)).isSome := by
    rw [List.find?_isSome]
    obtain ⟨it, h1, h2⟩ := h
    exact ⟨it, h1, by simp [h2]⟩
  obtain ⟨p, hp⟩ := Option.isSome_iff_exists.1 hsome
  have hpk : lowerStr p.name = kq.1 := by simpa using List.find?_some hp
  unfold dispItem
  rw [hp]
  simp only [Option.map_some', Option.getD_some]
  by_cases hE : p.name.isEmpty
  · have hnil : p.name = [] := by
      cases hn : p.name with
      | nil => rfl
      | cons c cs => rw [hn] at hE; exact absurd hE (by simp)
    have hknil : kq.1 = [] := by rw [← hpk, hnil]; rfl
    rw [if_pos hE, hknil]
    rfl
  · rw [if_neg hE]
    exact hpk

theorem ParsedLineItem.fieldsEq (a b : ParsedLineItem) (h1 : a.name = b.name)
    (h2 : a.quantity = b.quantity) (h3 : a.raw = b.raw) : a = b := by
  cases a; cases b
  simp only at h1 h2 h3
  rw [h1, h2, h3]

theorem filter_key_nil (M : List (List Char × Nat)) (k : List Char)
    (h : k ∉ M.map Prod.fst) : M.filter (fun kv => kv.1 = k) = [] := by
  induction M with
  | nil => rfl
  | cons a rest ih =>
    simp only [List.map_cons, List.mem_cons] at h
    push_neg at h
    have hne : ¬ (a.1 = k) := fun he => h.1 he.symm
    rw [List.filter_cons, if_neg (by simp [hne]), ih h.2]

theorem filter_key_sum (M : List (List Char × Nat)) (k : List Char)
    (hnd : (M.map Prod.fst).Nodup) :
    ((M.filter (fun kv => kv.1 = k)).map (fun kv => kv.2)).sum = lookup0 M k := by
  induction M with
  | nil => rfl
  | cons a rest ih =>
    obtain ⟨k1, q1⟩ := a
    rw [List.map_cons, List.nodup_cons] at hnd
    rw [List.filter_cons]
    by_cases hk : k1 = k
    · subst hk
      rw [if_pos (by simp), filter_key_nil rest k1 hnd.1]
      simp [lookup0]
    · rw [if_neg (by simp [hk]), ih hnd.2]
      simp [lookup0, hk]

theorem keyTotal_consolidate (parsed : List ParsedLineItem) (k : List Char) :
    keyTotal k (consolidate parsed) = lookup0 (buildQtyMap parsed) k := by
  unfold consolidate keyTotal
  rw [List.filter_map]
  have hcong : ∀ kq ∈ buildQtyMap parsed,
      ((fun it => decide (lowerStr it.name = k)) ∘ dispItem parsed) kq
        = (fun kv => decide (kv.1 = k)) kq := by
    intro kq hkq
    simp only [Function.comp_apply]
    rw [dispItem_lower parsed kq (build_keysrc parsed kq hkq)]
  rw [List.filter_congr hcong, List.map_map]
  have hmap : ∀ kq ∈ (buildQtyMap parsed).filter (fun kv => decide (kv.1 = k)),
      ((fun it => jsOr1 it.quantity) ∘ dispItem parsed) kq = (fun kv => kv.2) kq := by
    intro kq hkq
    simp only [Function.comp_apply, dispItem_quantity]
    exact jsOr1_of_pos _ (build_vals parsed kq (List.mem_filter.1 hkq).1)
  rw [List.map_congr_left hmap]
  exact filter_key_sum (buildQtyMap parsed) k (build_nodup parsed)

theorem build_of_fresh (M : List (List Char × Nat)) (F : (List Char × Nat) → ParsedLineItem)
    (acc : List (List Char × Nat))
    (hF : ∀ kq ∈ M, lowerStr (F kq).name = kq.1 ∧ jsOr1 (F kq).quantity = kq.2)
    (hnd : (M.map Prod.fst).Nodup)
    (hfresh : ∀ kq ∈ M, kq.1 ∉ acc.map Prod.fst) :
    M.foldl (fun m kq => upsertAdd m (lowerStr (F kq).name) (jsOr1 (F kq).quantity)) acc
      = acc ++ M := by
  induction M generalizing acc with
  | nil => simp
  | cons kq rest ih =>
    rw [List.foldl_cons]
    have h1 := hF kq (by simp)
    rw [h1.1, h1.2, upsert_absent _ _ _ (hfresh kq (by simp))]
    rw [List.map_cons, List.nodup_cons] at hnd
    have hF' : ∀ x ∈ rest, lowerStr (F x).name = x.1 ∧ jsOr1 (F x).quantity = x.2 :=
      fun x hx => hF x (List.mem_cons_of_mem _ hx)
    have hfresh' : ∀ x ∈ rest, x.1 ∉ (acc ++ [(kq.1, kq.2)]).map Prod.fst := by
      intro x hx
      rw [List.map_append, List.mem_append]
      push_neg
      refine ⟨hfresh x (List.mem_cons_of_mem _ hx), ?_⟩
      simp only [List.map_cons, List.map_nil, List.mem_singleton]
      intro he
      exact hnd.1 (he ▸ List.mem_map.2 ⟨x, hx, rfl⟩)
    rw [ih _ hF' hnd.2 hfresh']
    simp

theorem buildQty_consolidate (parsed : List ParsedLineItem) :
    buildQtyMap (consolidate parsed) = buildQtyMap parsed := by
  have hF : ∀ kq ∈ buildQtyMap parsed,
      lowerStr ((dispItem parsed) kq).name = kq.1 ∧
        jsOr1 ((dispItem parsed) kq).quantity = kq.2 := by
    intro kq hkq
    refine ⟨dispItem_lower parsed kq (build_keysrc parsed kq hkq), ?_⟩
    rw [dispItem_quantity]
    exact jsOr1_of_pos _ (build_vals parsed kq hkq)
  have h1 : buildQtyMap (consolidate parsed)
      = ((buildQtyMap parsed).map (dispItem parsed)).foldl
          (fun m it => upsertAdd m (lowerStr it.name) (jsOr1 it.quantity)) [] := rfl
  rw [h1, List.foldl_map,
    build_of_fresh (buildQtyMap parsed) (dispItem parsed) [] hF (build_nodup parsed)
      (by simp)]
  rfl

theorem consolidate_idem (parsed : List ParsedLineItem) :
    consolidate (consolidate parsed) = consolidate parsed := by
  have h1 : consolidate (consolidate parsed)
      = (buildQtyMap (consolidate parsed)).map (dispItem (consolidate parsed)) := rfl
  rw [h1, buildQty_consolidate]
  have h2 : ∀ kq ∈ buildQtyMap parsed,
      dispItem (consolidate parsed) kq = dispItem parsed kq := by
    intro kq hkq
    have hsrc := build_keysrc parsed kq hkq
    have hfind : (consolidate parsed).find? (fun p => lowerStr p.name = kq.1)
        = some (dispItem parsed kq) := by
      show ((buildQtyMap parsed).map (dispItem parsed)).find?
        (fun p => decide (lowerStr p.name = kq.1)) = some (dispItem parsed kq)
      rw [List.find?_map]
      have hcong : ∀ x ∈ buildQtyMap parsed,
          ((fun p => decide (lowerStr p.name = kq.1)) ∘ dispItem parsed) x
            = (fun kv => decide (kv.1 = kq.1)) x := by
        intro x hx
        simp only [Function.comp_apply]
        rw [dispItem_lower parsed x (build_keysrc parsed x hx)]
      rw [find?_congr_mem _ _ _ hcong,
        find?_first_key (buildQtyMap parsed) kq (build_nodup parsed) hkq]
      rfl
    refine ParsedLineItem.fieldsEq _ _ ?_ rfl rfl
    show ((((consolidate parsed).find? (fun p => lowerStr p.name = kq.1)).map
        (fun p => if p.name.isEmpty then kq.1 else p.name)).getD kq.1)
      = (dispItem parsed kq).name
    rw [hfind]
    simp only [Option.map_some', Option.getD_some]
    by_cases hE : (dispItem parsed kq).name.isEmpty
    · have hnil : (dispItem parsed kq).name = [] := by
        cases hn : (dispItem parsed kq).name with
        | nil => rfl
        | cons c cs => rw [hn] at hE; exact absurd hE (by simp)
      have hlow := dispItem_lower parsed kq hsrc
      rw [hnil] at hlow
      rw [if_pos hE, hnil, ← hlow]
      rfl
    · rw [if_neg hE]
  rw [List.map_congr_left h2]
  rfl

/-- Counterexample to literal commutativity of consolidation: swapping the two
case-variant items changes the retained (first-seen) casing of the merged
name, so the consolidated lists differ. -/
theorem c9_counterexample :
    consolidate [⟨chars "x", 2, none⟩, ⟨chars "X", 1, none⟩] = [⟨chars "x", 3, none⟩] ∧
    consolidate [⟨chars "X", 1, none⟩, ⟨chars "x", 2, none⟩] = [⟨chars "X", 3, none⟩] ∧
    consolidate [⟨chars "x", 2, none⟩, ⟨chars "X", 1, none⟩] ≠
      consolidate [⟨chars "X", 1, none⟩, ⟨chars "x", 2, none⟩] := by
  refine ⟨by decide, by decide, by decide⟩

/-- **C9 (amended).**  Consolidation merges items by case-insensitive name,
summing effective quantities and keeping the first-seen casing (the quoted
`[("X",1),("x",2)] → [("X",3)]` example holds); it is idempotent; and it is
commutative only up to the retained casing: any permutation of the input
preserves, for every case-folded key, the total consolidated quantity, while
the displayed casing follows first occurrence and can change under
permutation. -/
theorem c9_consolidation :
    consolidate [⟨chars "X", 1, none⟩, ⟨chars "x", 2, none⟩] = [⟨chars "X", 3, none⟩] ∧
    (∀ parsed, consolidate (consolidate parsed) = consolidate parsed) ∧
    (∀ l1 l2 : List ParsedLineItem, l1.Perm l2 →
      ∀ k, keyTotal k (consolidate l1) = keyTotal k (consolidate l2)) := by
  refine ⟨by decide, consolidate_idem, ?_⟩
  intro l1 l2 hperm k
  rw [keyTotal_consolidate, keyTotal_consolidate, lookup0_build, lookup0_build]
  exact List.Perm.sum_eq ((hperm.filter _).map _)

/-- Witness for C9 at a concrete permutation of a two-item list. -/
theorem c9_witness :
    ([⟨chars "X", 1, none⟩, ⟨chars "x", 2, none⟩] : List ParsedLineItem).Perm
      [⟨chars "x", 2, none⟩, ⟨chars "X", 1, none⟩] ∧
    keyTotal (chars "x") (consolidate [⟨chars "X", 1, none⟩, ⟨chars "x", 2, none⟩])
      = keyTotal (chars "x") (consolidate [⟨chars "x", 2, none⟩, ⟨chars "X", 1, none⟩]) :=
  ⟨by decide, c9_consolidation.2.2 _ _ (by decide) (chars "x")⟩

/- ### Claim C7: computeStats totals -/

theorem computeStats_fold (items : List ParsedLineItem) (h u : Nat) :
    items.foldl
      (fun st it =>
        let q := jsOr1 it.quantity
        (⟨st.hampers + (if isPackagingSku (classifySkuAndTitle it.name).sku then q else 0),
          st.units + q⟩ : JsStats))
      ⟨h, u⟩
      = ⟨h + ((items.filter
            (fun it => isPackagingSku (classifySkuAndTitle it.name).sku)).map
            (fun it => jsOr1 it.quantity)).sum,
          u + (items.map (fun it => jsOr1 it.quantity)).sum⟩ := by
  induction items generalizing h u with
  | nil => simp
  | cons it rest ih =>
    rw [List.foldl_cons]
    dsimp only
    by_cases hp : isPackagingSku (classifySkuAndTitle it.name).sku = true
    · rw [if_pos hp, ih, List.filter_cons, if_pos (by simp [hp]), List.map_cons,
        List.sum_cons, List.map_cons, List.sum_cons]
      simp only [JsStats.mk.injEq]
      constructor <;> omega
    · rw [if_neg hp, ih, List.filter_cons, if_neg (by simp at hp ⊢; exact hp),
        List.map_cons, List.sum_cons]
      simp only [JsStats.mk.injEq]
      constructor <;> omega

/-- Counterexample to C7 as stated: a materialized event carrying an explicit
zero-quantity item counts 1 unit (the code sums `quantity || 1`), while the
sum of the item quantities is 0. -/
theorem c7_counterexample :
    ((processRow 2025
        [(chars "Order Number", .js (.str (chars "O1"))),
          (chars "Delivery Date", .js (.str (chars "na"))),
          (chars "Offline Order Items", .js (.str (chars "10-03-25-Widget - 0")))]).map
        (fun e => (computeStats e.resource).units)) = [1] ∧
    ((processRow 2025
        [(chars "Order Number", .js (.str (chars "O1"))),
          (chars "Delivery Date", .js (.str (chars "na"))),
          (chars "Offline Order Items", .js (.str (chars "10-03-25-Widget - 0")))]).map
        (fun e => ((getParsedLineItems e.resource).map (fun it => it.quantity)).sum)) = [0] := by
  refine ⟨by decide, by decide⟩

/-- **C7 (amended).**  `computeStats` sums the *effective* quantity
`quantity || 1` of the parsed items (so a zero-quantity item still counts one
unit): units is the effective-quantity total, hampers the effective-quantity
total over exactly the items whose classified SKU starts with a packaging
code as a leading whole word; the quoted BOX/ABC example yields
hampers 2, units 5. -/
theorem c7_stats :
    (∀ row : Row,
      (computeStats row).units
          = ((getParsedLineItems row).map (fun it => jsOr1 it.quantity)).sum ∧
      (computeStats row).hampers
          = (((getParsedLineItems row).filter
              (fun it => isPackagingSku (classifySkuAndTitle it.name).sku)).map
              (fun it => jsOr1 it.quantity)).sum) ∧
    computeStats [(chars "__itemsForEvent",
        .items [⟨chars "BOX", 2, none⟩, ⟨chars "ABC", 3, none⟩])] = ⟨2, 5⟩ := by
  refine ⟨?_, by decide⟩
  intro row
  unfold computeStats
  rw [computeStats_fold]
  constructor <;> simp

/- ### Claim C3: dated-group materialization -/

theorem rowGet_setKey_same (r : Row) (k : List Char) (v : CellValue) :
    rowGet (setKey r k v) k = some v := by
  induction r with
  | nil => simp [setKey, rowGet]
  | cons a rest ih =>
    obtain ⟨k1, v1⟩ := a
    by_cases h : k1 = k
    · subst h; simp [setKey, rowGet]
    · simp [setKey, rowGet, h, ih]

theorem rowGet_setKey_other (r : Row) (k k' : List Char) (v : CellValue)
    (h : k' ≠ k) : rowGet (setKey r k v) k' = rowGet r k' := by
  induction r with
  | nil => simp [setKey, rowGet, Ne.symm h]
  | cons a rest ih =>
    obtain ⟨k1, v1⟩ := a
    by_cases h1 : k1 = k
    · subst h1
      simp [setKey, rowGet, Ne.symm h]
    · by_cases h2 : k1 = k'
      · subst h2
        simp [setKey, rowGet, h1]
      · simp [setKey, rowGet, h1, h2, ih]

theorem upsertApp_keys (m : List (List Char × List (List Char))) (k v : List Char) :
    (upsertApp m k v).map Prod.fst =
      if k ∈ m.map Prod.fst then m.map Prod.fst else m.map Prod.fst ++ [k] := by
  induction m with
  | nil => simp [upsertApp]
  | cons a rest ih =>
    obtain ⟨k1, vs⟩ := a
    by_cases hk : k1 = k
    · subst hk
      simp [upsertApp]
    · have hstep : upsertApp ((k1, vs) :: rest) k v = (k1, vs) :: upsertApp rest k v := by
        simp [upsertApp, hk]
      rw [hstep]
      by_cases hmem : k ∈ rest.map Prod.fst
      · simp [hmem, ih, hk]
      · simp [hmem, ih, hk, Ne.symm hk]

theorem groups_keys_aux (parts : List (List Char))
    (m : List (List Char × List (List Char))) :
    ((parts.foldl
        (fun m p => match dateTagOf p with | some (d, r) => upsertApp m d r | none => m)
        m).map Prod.fst)
      = parts.foldl
          (fun acc p =>
            match dateTagOf p with
            | some (d, _) => if acc.contains d then acc else acc ++ [d]
            | none => acc)
          (m.map Prod.fst) := by
  induction parts generalizing m with
  | nil => rfl
  | cons p rest ih =>
    rw [List.foldl_cons, List.foldl_cons]
    cases hdt : dateTagOf p with
    | none =>
      simp only [hdt]
      exact ih m
    | some dr =>
      obtain ⟨d, rr⟩ := dr
      simp only [hdt]
      rw [ih]
      congr 1
      rw [upsertApp_keys]
      by_cases hm : d ∈ m.map Prod.fst
      · rw [if_pos hm, if_pos (List.elem_eq_true_of_mem hm)]
      · rw [if_neg hm, if_neg (fun hc => hm (List.mem_of_elem_eq_true hc))]

theorem groups_keys (parts : List (List Char)) :
    (buildDatedGroups parts).map Prod.fst = firstSeenTags parts := by
  unfold buildDatedGroups firstSeenTags
  exact groups_keys_aux parts []

/-- **C3.**  (i) For every row with a truthy order identifier whose items cell
is the quoted three-fragment string, the materializer emits exactly two
events — March 10 2025 carrying SKU-A and SKU-B (quantity 1 each), then
March 11 2025 carrying SKU-C — in that order; (ii) the dated groups are keyed
in the order in which date tags first occur in the fragment sequence; and
(iii) on the dated branch the emitted event dates are exactly the group tags
in group order, filtered through the Date Normalizer. -/
theorem c3_materializer :
    (∀ (refYear : Int) (row : Row) (oid : List Char),
      getValueFromRow row orderNumberSyns = some (.js (.str oid)) → oid ≠ [] →
      itemsCellOfRow row = chars "10-03-25-SKU-A - 1,10-03-25-SKU-B - 1,11-03-25-SKU-C - 1" →
      (processRow refYear row).map
          (fun e => (e.date, rowGet e.resource (chars "__itemsForEvent")))
        = [(⟨2025, 3, 10⟩, some (.items
              [⟨chars "SKU-A", 1, some (chars "SKU-A - 1")⟩,
                ⟨chars "SKU-B", 1, some (chars "SKU-B - 1")⟩])),
            (⟨2025, 3, 11⟩, some (.items
              [⟨chars "SKU-C", 1, some (chars "SKU-C - 1")⟩]))]) ∧
    (∀ parts : List (List Char),
      (buildDatedGroups parts).map Prod.fst = firstSeenTags parts) ∧
    (∀ (refYear : Int) (row : Row),
      cellTruthy (getValueFromRow row orderNumberSyns) = true →
      (buildDatedGroups (splitItemsList (itemsCellOfRow row))).isEmpty = false →
      (processRow refYear row).map (fun e => e.date)
        = (buildDatedGroups (splitItemsList (itemsCellOfRow row))).filterMap
            (fun g => normalizeDate refYear (.str g.1))) := by
  refine ⟨?_, groups_keys, ?_⟩
  · intro refYear row oid h1 h2 h3
    have htruthy : cellTruthy (getValueFromRow row orderNumberSyns) = true := by
      rw [h1]
      cases oid with
      | nil => exact absurd rfl h2
      | cons c cs => rfl
    have hd1 : normalizeDate refYear (.str (chars "10-03-25")) = some ⟨2025, 3, 10⟩ :=
      normalizeDate_str_strict refYear _ _ (by decide) (by decide) (by decide)
    have hd2 : normalizeDate refYear (.str (chars "11-03-25")) = some ⟨2025, 3, 11⟩ :=
      normalizeDate_str_strict refYear _ _ (by decide) (by decide) (by decide)
    simp only [processRow, htruthy, Bool.not_true, h3]
    rw [show splitItemsList
          (chars "10-03-25-SKU-A - 1,10-03-25-SKU-B - 1,11-03-25-SKU-C - 1")
        = [chars "10-03-25-SKU-A - 1", chars "10-03-25-SKU-B - 1",
            chars "11-03-25-SKU-C - 1"] from by decide]
    rw [show buildDatedGroups
          [chars "10-03-25-SKU-A - 1", chars "10-03-25-SKU-B - 1",
            chars "11-03-25-SKU-C - 1"]
        = [(chars "10-03-25", [chars "SKU-A - 1", chars "SKU-B - 1"]),
            (chars "11-03-25", [chars "SKU-C - 1"])] from by decide]
    simp only [List.isEmpty_cons, Bool.not_false, if_true, List.filterMap_cons,
      List.filterMap_nil, hd1, hd2]
    rw [if_neg (by decide : ¬ (false = true))]
    simp only [List.map_cons, List.map_nil]
    rw [rowGet_setKey_same, rowGet_setKey_same]
    rw [show parseItemsFromOfflineCell
          (List.intercalate [',', ' '] [chars "SKU-A - 1", chars "SKU-B - 1"])
        = [⟨chars "SKU-A", 1, some (chars "SKU-A - 1")⟩,
            ⟨chars "SKU-B", 1, some (chars "SKU-B - 1")⟩] from by decide]
    rw [show parseItemsFromOfflineCell (List.intercalate [',', ' '] [chars "SKU-C - 1"])
        = [⟨chars "SKU-C", 1, some (chars "SKU-C - 1")⟩] from by decide]
  · intro refYear row ht hg
    simp only [processRow, ht, Bool.not_true, hg, Bool.not_false, if_true]
    rw [if_neg (by decide : ¬ (false = true))]
    rw [List.map_filterMap]
    congr 1
    funext g
    cases hnd : normalizeDate refYear (.str g.1) <;> simp [hnd]

/-- Witness for C3 at a concrete row carrying the quoted items cell. -/
theorem c3_witness :
    (processRow 2025
        [(chars "Order Number", .js (.str (chars "ORD1"))),
          (chars "Offline Order Items",
            .js (.str (chars "10-03-25-SKU-A - 1,10-03-25-SKU-B - 1,11-03-25-SKU-C - 1")))]).map
        (fun e => (e.date, rowGet e.resource (chars "__itemsForEvent")))
      = [(⟨2025, 3, 10⟩, some (.items
            [⟨chars "SKU-A", 1, some (chars "SKU-A - 1")⟩,
              ⟨chars "SKU-B", 1, some (chars "SKU-B - 1")⟩])),
          (⟨2025, 3, 11⟩, some (.items
            [⟨chars "SKU-C", 1, some (chars "SKU-C - 1")⟩]))] :=
  c3_materializer.1 2025 _ (chars "ORD1") (by decide) (by decide) (by decide)

/- ### Claim C6: silent failure handling -/

theorem processRow_no_order (refYear : Int) (row : Row)
    (h : cellTruthy (getValueFromRow row orderNumberSyns) = false) :
    processRow refYear row = [] := by
  simp only [processRow, h, Bool.not_false, if_true]

theorem processRow_fallback_none (refYear : Int) (row : Row)
    (hg : (buildDatedGroups (splitItemsList (itemsCellOfRow row))).isEmpty = true)
    (hd : normalizeDateCell refYear (getValueFromRow row deliveryDateSyns) = none) :
    processRow refYear row = [] := by
  by_cases ht : cellTruthy (getValueFromRow row orderNumberSyns) = true
  · simp only [processRow, ht, Bool.not_true, hg, hd]
    rw [if_neg (by decide : ¬ (false = true)), if_neg (by decide : ¬ (false = true))]
  · exact processRow_no_order refYear row (by
      cases hcc : cellTruthy (getValueFromRow row orderNumberSyns) with
      | false => rfl
      | true => exact absurd hcc ht)

theorem processRow_sibling (refYear : Int) (row : Row) (g : List Char × List (List Char))
    (d : CivilDate)
    (ht : cellTruthy (getValueFromRow row orderNumberSyns) = true)
    (hmem : g ∈ buildDatedGroups (splitItemsList (itemsCellOfRow row)))
    (hnorm : normalizeDate refYear (.str g.1) = some d) :
    ∃ e ∈ processRow refYear row, e.date = d ∧
      rowGet e.resource (chars "__itemsForEvent")
        = some (.items (parseItemsFromOfflineCell (List.intercalate [',', ' '] g.2))) := by
  have hne : (buildDatedGroups (splitItemsList (itemsCellOfRow row))).isEmpty = false := by
    cases hG : buildDatedGroups (splitItemsList (itemsCellOfRow row)) with
    | nil => rw [hG] at hmem; exact absurd hmem (by simp)
    | cons a l => rfl
  simp only [processRow, ht, Bool.not_true, hne, Bool.not_false, if_true]
  rw [if_neg (by decide : ¬ (false = true))]
  refine ⟨⟨jsToStringO (getValueFromRow row orderNumberSyns), d,
      setKey (setKey (setKey row (chars "Order Number")
          (.js (.str (jsToStringO (getValueFromRow row orderNumberSyns)))))
        (chars "Delivery Date") (.js (.str g.1)))
        (chars "__itemsForEvent")
        (.items (parseItemsFromOfflineCell (List.intercalate [',', ' '] g.2)))⟩,
    List.mem_filterMap.2 ⟨g, hmem, ?_⟩, rfl, rowGet_setKey_same _ _ _⟩
  simp only [hnorm]

/-- **C6.**  Missing or falsy order identifiers and unparseable delivery
dates silently drop rows, and unparseable embedded date tags drop only their
own sub-group: (i) a row whose order-identifier lookup is falsy yields no
events; (ii) a row with no dated groups whose delivery-date field fails
normalization yields no events; (iii) whenever any group of a row has a
normalizable tag, that group's event is emitted with its own items,
regardless of other (possibly unparseable) tags.  The embedding is total, so
no failure can raise: every outcome is an explicit empty or partial list. -/
theorem c6_silent_failures :
    (∀ (refYear : Int) (row : Row),
      cellTruthy (getValueFromRow row orderNumberSyns) = false →
      processRow refYear row = []) ∧
    (∀ (refYear : Int) (row : Row),
      (buildDatedGroups (splitItemsList (itemsCellOfRow row))).isEmpty = true →
      normalizeDateCell refYear (getValueFromRow row deliveryDateSyns) = none →
      processRow refYear row = []) ∧
    (∀ (refYear : Int) (row : Row) (g : List Char × List (List Char)) (d : CivilDate),
      cellTruthy (getValueFromRow row orderNumberSyns) = true →
      g ∈ buildDatedGroups (splitItemsList (itemsCellOfRow row)) →
      normalizeDate refYear (.str g.1) = some d →
      ∃ e ∈ processRow refYear row, e.date = d ∧
        rowGet e.resource (chars "__itemsForEvent")
          = some (.items (parseItemsFromOfflineCell (List.intercalate [',', ' '] g.2)))) :=
  ⟨processRow_no_order, processRow_fallback_none, processRow_sibling⟩

/-- Witness for C6: a row with no order identifier yields no events; a row
whose second date tag is invalid still yields the event of the valid first
tag. -/
theorem c6_witness :
    processRow 2025 [(chars "Customer Name", .js (.str (chars "x")))] = [] ∧
    (∃ e ∈ processRow 2025
        [(chars "Order Number", .js (.str (chars "O1"))),
          (chars "Items", .js (.str (chars "10-03-25-Widget - 2,99-99-99-Gadget")))],
      e.date = (⟨2025, 3, 10⟩ : CivilDate) ∧
      rowGet e.resource (chars "__itemsForEvent")
        = some (.items (parseItemsFromOfflineCell
            (List.intercalate [',', ' '] [chars "Widget - 2"])))) :=
  ⟨c6_silent_failures.1 2025 _ (by decide),
    c6_silent_failures.2.2 2025 _ (chars "10-03-25", [chars "Widget - 2"]) ⟨2025, 3, 10⟩
      (by decide) (by decide) (by decide)⟩

/- ### Claim C10: resource frame conditions -/

/-- **C10.**  Every emitted event's resource row agrees with the source row
on every key other than `Order Number`, `Delivery Date` and
`__itemsForEvent`; `Order Number` holds the stringified resolved order id;
and either the event came from a dated group — `Delivery Date` is that
group's tag, `__itemsForEvent` its parsed items, and the tag normalizes to
the event date — or there were no dated groups and `Delivery Date` holds the
raw delivery value while `__itemsForEvent` is untouched.  The embedding is
purely functional, so the source row itself is unchanged by construction:
every update happens on the copy `e.resource`. -/
theorem c10_frame (refYear : Int) (row : Row) (e : OrderEvent)
    (he : e ∈ processRow refYear row) :
    (∀ k : List Char, k ≠ chars "Order Number" → k ≠ chars "Delivery Date" →
      k ≠ chars "__itemsForEvent" → rowGet e.resource k = rowGet row k) ∧
    rowGet e.resource (chars "Order Number")
      = some (.js (.str (jsToStringO (getValueFromRow row orderNumberSyns)))) ∧
    ((∃ g ∈ buildDatedGroups (splitItemsList (itemsCellOfRow row)),
        rowGet e.resource (chars "Delivery Date") = some (.js (.str g.1)) ∧
        rowGet e.resource (chars "__itemsForEvent")
          = some (.items (parseItemsFromOfflineCell (List.intercalate [',', ' '] g.2))) ∧
        normalizeDate refYear (.str g.1) = some e.date) ∨
      (buildDatedGroups (splitItemsList (itemsCellOfRow row)) = [] ∧
        rowGet e.resource (chars "Delivery Date")
          = some ((getValueFromRow row deliveryDateSyns).getD (.js .undef)) ∧
        rowGet e.resource (chars "__itemsForEvent")
          = rowGet row (chars "__itemsForEvent"))) := by
  by_cases ht : cellTruthy (getValueFromRow row orderNumberSyns) = true
  · simp only [processRow, ht, Bool.not_true] at he
    rw [if_neg (by decide : ¬ (false = true))] at he
    by_cases hg : (buildDatedGroups (splitItemsList (itemsCellOfRow row))).isEmpty = true
    · simp only [hg, Bool.not_true] at he
      rw [if_neg (by decide : ¬ (false = true))] at he
      cases hd : normalizeDateCell refYear (getValueFromRow row deliveryDateSyns) with
      | none => rw [hd] at he; exact absurd he (by simp)
      | some delivery =>
        rw [hd] at he
        simp only [List.mem_singleton] at he
        subst he
        refine ⟨?_, ?_, Or.inr ⟨?_, ?_, ?_⟩⟩
        · intro k hk1 hk2 _
          dsimp only
          rw [rowGet_setKey_other _ _ _ _ hk2, rowGet_setKey_other _ _ _ _ hk1]
        · dsimp only
          rw [rowGet_setKey_other _ _ _ _ (by decide), rowGet_setKey_same]
        · cases hGG : buildDatedGroups (splitItemsList (itemsCellOfRow row)) with
          | nil => rfl
          | cons a l => rw [hGG] at hg; exact absurd hg (by simp)
        · dsimp only
          rw [rowGet_setKey_same]
        · dsimp only
          rw [rowGet_setKey_other _ _ _ _ (by decide),
            rowGet_setKey_other _ _ _ _ (by decide)]
    · have hg' : (buildDatedGroups (splitItemsList (itemsCellOfRow row))).isEmpty = false := by
        cases hcc : (buildDatedGroups (splitItemsList (itemsCellOfRow row))).isEmpty with
        | false => rfl
        | true => exact absurd hcc hg
      simp only [hg', Bool.not_false, if_true] at he
      obtain ⟨g, hgmem, hfg⟩ := List.mem_filterMap.1 he
      cases hnd : normalizeDate refYear (.str g.1) with
      | none => rw [hnd] at hfg; exact absurd hfg (by simp)
      | some d =>
        rw [hnd] at hfg
        simp only [Option.some.injEq] at hfg
        subst hfg
        refine ⟨?_, ?_, Or.inl ⟨g, hgmem, ?_, ?_, ?_⟩⟩
        · intro k hk1 hk2 hk3
          dsimp only
          rw [rowGet_setKey_other _ _ _ _ hk3, rowGet_setKey_other _ _ _ _ hk2,
            rowGet_setKey_other _ _ _ _ hk1]
        · dsimp only
          rw [rowGet_setKey_other _ _ _ _ (by decide),
            rowGet_setKey_other _ _ _ _ (by decide), rowGet_setKey_same]
        · dsimp only
          rw [rowGet_setKey_other _ _ _ _ (by decide), rowGet_setKey_same]
        · dsimp only
          rw [rowGet_setKey_same]
        · dsimp only
          exact hnd
  · rw [processRow_no_order refYear row (by
      cases hcc : cellTruthy (getValueFromRow row orderNumberSyns) with
      | false => rfl
      | true => exact absurd hcc ht)] at he
    exact absurd he (by simp)

/-- Witness for C10 at a concrete fallback-branch row: the untouched `Extra`
field survives into the resource and `Order Number` is the stringified id. -/
theorem c10_witness :
    ((⟨chars "O1", ⟨2025, 3, 10⟩,
        [(chars "Order Number", .js (.str (chars "O1"))),
          (chars "Delivery Date", .js (.str (chars "10-03-25"))),
          (chars "Extra", .js (.str (chars "z")))]⟩ : OrderEvent) ∈ processRow 2025
        [(chars "Order Number", .js (.str (chars "O1"))),
          (chars "Delivery Date", .js (.str (chars "10-03-25"))),
          (chars "Extra", .js (.str (chars "z")))]) ∧
    rowGet ([(chars "Order Number", .js (.str (chars "O1"))),
        (chars "Delivery Date", .js (.str (chars "10-03-25"))),
        (chars "Extra", .js (.str (chars "z")))] : Row) (chars "Extra")
      = rowGet [(chars "Order Number", .js (.str (chars "O1"))),
          (chars "Delivery Date", .js (.str (chars "10-03-25"))),
          (chars "Extra", .js (.str (chars "z")))] (chars "Extra") :=
  ⟨by decide,
    (c10_frame 2025
        [(chars "Order Number", .js (.str (chars "O1"))),
          (chars "Delivery Date", .js (.str (chars "10-03-25"))),
          (chars "Extra", .js (.str (chars "z")))]
        ⟨chars "O1", ⟨2025, 3, 10⟩,
          [(chars "Order Number", .js (.str (chars "O1"))),
            (chars "Delivery Date", .js (.str (chars "10-03-25"))),
            (chars "Extra", .js (.str (chars "z")))]⟩ (by decide)).1
      (chars "Extra") (by decide) (by decide) (by decide)⟩

